import Mathlib

/-!
# The audio mixing synchronizer of `src/audio_output/mixer.c`

A shallow embedding of `MixBuffer` (mixer.c, lines 64-258) and theorems about it.

Conventions of the embedding:

* `mtime_t` is the signed 64-bit microsecond date of the C code; it is embedded as `Int`
  (signed overflow is undefined behaviour in C and is not modelled).
* A fifo (`p_first` and the `p_next` chain) is a `List` of buffers, head first;
  `aout_BufferFree` of a buffer is its removal from the list.
* Byte pointers are addresses (`Nat`), `NULL` is address `0`; `unsigned long` arithmetic is
  arithmetic modulo `2 ^ 64`.
* `msg_Warn` and `msg_Err` only print diagnostics; they have no effect on the state and are
  left out.  The calls that leave the function (`vlc_mutex_lock`, `vlc_mutex_unlock`,
  `pf_do_work`, `aout_OutputPlay`) are recorded, in order, in a trace.
* What the file does not define (`mdate`, `aout_BufferAlloc`, the mixer plug-in's
  `pf_do_work`) is a field of the environment `aout_env`.  What `aout_OutputPlay` does to
  the instance after the function has released the lock happens outside `mixer.c` and is not
  part of the result.
* The bookkeeping of the tail pointer of a fifo (`pp_last`, line 144) has no counterpart in a
  list.
-/

namespace Mixer

/-! ## Data model -/

/-- The C type `mtime_t`: a date in microseconds, signed. -/
abbrev mtime_t := Int

/-- The null pointer. -/
def NULL : Nat := 0

/-- One more than the largest `unsigned long`. -/
def ULONG_SIZE : Nat := 2 ^ 64

/-- Conversion of a signed value to `unsigned long` (reduction modulo `2 ^ 64`). -/
def to_ulong (x : Int) : Nat := (x % (ULONG_SIZE : Int)).toNat

/-- The fields of `aout_buffer_t` that `MixBuffer` reads or writes.  `p_buffer` is the address
of the first payload byte. -/
structure aout_buffer_t where
  start_date : mtime_t
  end_date : mtime_t
  p_buffer : Nat
  i_nb_bytes : Int
  i_nb_samples : Int
  deriving DecidableEq, Repr

/-- The fields of `aout_input_t` that `MixBuffer` uses: the fifo of the input (its `p_first`
chain) and `p_first_byte_to_mix`, a pointer into the payload of the head buffer
(`NULL` when unset). -/
structure aout_input_t where
  fifo : List aout_buffer_t
  p_first_byte_to_mix : Nat
  deriving DecidableEq, Repr

/-- The fields of `audio_sample_format_t` that `MixBuffer` uses; `non_linear` is the value of
the macro `AOUT_FMT_NON_LINEAR` on the format. -/
structure audio_sample_format_t where
  i_rate : Int
  i_bytes_per_frame : Int
  i_frame_length : Int
  non_linear : Bool
  deriving DecidableEq, Repr

/-- The fields of `aout_instance_t` that `MixBuffer` uses.  `output_fifo_end_date` is
`p_aout->output.fifo.end_date` (the output clock, `0` when unset), `pp_inputs` holds the
`i_nb_inputs` inputs, `output_i_nb_samples` is `p_aout->output.i_nb_samples`,
`output_i_rate` is `p_aout->output.output.i_rate` and `mixer` is `p_aout->mixer.mixer`. -/
structure aout_instance_t where
  output_fifo_end_date : mtime_t
  pp_inputs : List aout_input_t
  output_i_nb_samples : Int
  output_i_rate : Int
  mixer : audio_sample_format_t
  deriving DecidableEq, Repr

/-- What `MixBuffer` calls and this file does not define: the clock `mdate()`, the allocation
`aout_BufferAlloc` (from the requested duration and the representative buffer to the address of
the new payload, `none` for a failed allocation) and the work routine of the mixer plug-in. -/
structure aout_env where
  mdate : mtime_t
  BufferAlloc : Nat → Option aout_buffer_t → Option Nat
  pf_do_work : aout_instance_t → aout_buffer_t → aout_instance_t

/-- The calls of `MixBuffer` that are visible from outside, recorded in order.  `do_work`
carries the instance as it is when the work routine is entered. -/
inductive aout_event where
  | mutex_lock : aout_event
  | mutex_unlock : aout_event
  | do_work : aout_instance_t → aout_buffer_t → aout_event
  | OutputPlay : aout_buffer_t → aout_event
  deriving DecidableEq, Repr

/-- The outcome of one call of `MixBuffer`: the returned `int`, the instance afterwards and the
trace of calls. -/
structure mix_result where
  ret : Int
  p_aout : aout_instance_t
  trace : List aout_event

/-! ## `MixBuffer`, piece by piece -/

/-- Modelled from the spec: `aout_FifoNextStart` is declared outside `mixer.c`; the output clock
is the single value `next_start_date`, kept in the output fifo's `end_date` (line 80 clears
it there), `0` meaning unset. -/
def aout_FifoNextStart (p_aout : aout_instance_t) : mtime_t :=
  p_aout.output_fifo_end_date

/-- Lines 72-81: read the date of the next buffer; a non-zero date earlier than `mdate()` is
cleared, in the local variable and in the output fifo.  Returns the instance and
`start_date`. -/
def retrieveDate (env : aout_env) (p_aout : aout_instance_t) : aout_instance_t × mtime_t :=
  let start_date := aout_FifoNextStart p_aout
  if start_date ≠ 0 ∧ start_date < env.mdate then
    ({ p_aout with output_fifo_end_date := 0 }, 0)
  else
    (p_aout, start_date)

/-- Lines 88-104: the loop that looks for the latest start date.  The `Bool` is `true` when
the loop ran to its end (`i == i_nb_inputs`) and `false` when it stopped at an empty fifo. -/
def latestStart (start_date : mtime_t) : List aout_input_t → mtime_t × Bool
  | [] => (start_date, true)
  | p_input :: rest =>
    match p_input.fifo with
    | [] => (start_date, false)
    | p_buffer :: _ =>
      if start_date = 0 ∨ start_date < p_buffer.start_date then
        latestStart p_buffer.start_date rest
      else
        latestStart start_date rest

/-- Lines 85-112: the start date of the cycle, `none` when the function returns `-1` at
line 110. -/
def findStart (start_date : mtime_t) (pp_inputs : List aout_input_t) : Option mtime_t :=
  if start_date = 0 then
    match latestStart start_date pp_inputs with
    | (s, true) => some s
    | (_, false) => none
  else
    some start_date

/-- Lines 113-114: the end date of the cycle (C division truncates towards zero). -/
def cycleEnd (p_aout : aout_instance_t) (start_date : mtime_t) : mtime_t :=
  start_date + Int.tdiv (p_aout.output_i_nb_samples * 1000000) p_aout.output_i_rate

/-- Lines 133-141: free the head buffers that end before `start_date`; every removal sets
`p_first_byte_to_mix` to `NULL`.  Returns the fifo and `p_first_byte_to_mix`. -/
def dropPast (start_date : mtime_t) :
    List aout_buffer_t → Nat → List aout_buffer_t × Nat
  | [], p_first_byte_to_mix => ([], p_first_byte_to_mix)
  | p_buffer :: p_next, p_first_byte_to_mix =>
    if p_buffer.end_date < start_date then
      dropPast start_date p_next NULL
    else
      (p_buffer :: p_next, p_first_byte_to_mix)

/-- Lines 152-156: the expected position of the first byte to mix, an `unsigned long`. -/
def expectedBytes (mixer : audio_sample_format_t) (start_date : mtime_t)
    (p_buffer : aout_buffer_t) : Nat :=
  to_ulong (Int.tdiv (Int.tdiv
    ((start_date - p_buffer.start_date) * mixer.i_bytes_per_frame * mixer.i_rate)
    mixer.i_frame_length) 1000000)

/-- Lines 159-180: check that `p_first_byte_to_mix` is well located against the head buffer
`p_buffer`; returns the new `p_first_byte_to_mix`.  The two comparisons are between
`unsigned long` values. -/
def alignFirstByte (mixer : audio_sample_format_t) (start_date : mtime_t)
    (p_buffer : aout_buffer_t) (p_first_byte_to_mix : Nat) : Nat :=
  let i_nb_bytes := expectedBytes mixer start_date p_buffer
  let p_first := if p_first_byte_to_mix = NULL then p_buffer.p_buffer else p_first_byte_to_mix
  let mixer_nb_bytes : Int := (p_first : Int) - (p_buffer.p_buffer : Int)
  let bytes_per_frame := to_ulong mixer.i_bytes_per_frame
  if (i_nb_bytes + bytes_per_frame) % ULONG_SIZE < to_ulong mixer_nb_bytes
      ∨ (i_nb_bytes + ULONG_SIZE - bytes_per_frame) % ULONG_SIZE > to_ulong mixer_nb_bytes then
    (p_buffer.p_buffer + (i_nb_bytes / bytes_per_frame * bytes_per_frame) % ULONG_SIZE)
      % ULONG_SIZE
  else
    p_first

/-- Lines 194-206: the walk that checks that the buffers after the head are contiguous.
Returns `p_buffer` as the loop leaves it (the rest of the chain from the buffer it stopped at,
`[]` for `NULL`) and `b_drop_buffers`. -/
def checkContiguous (end_date : mtime_t) :
    mtime_t → List aout_buffer_t → List aout_buffer_t × Bool
  | _, [] => ([], false)
  | prev_date, p_buffer :: p_next =>
    if prev_date ≠ p_buffer.start_date then
      (p_buffer :: p_next, true)
    else if p_buffer.end_date ≥ end_date then
      (p_buffer :: p_next, false)
    else
      checkContiguous end_date p_buffer.end_date p_next

set_option linter.unusedVariables false in
/-- Lines 184-219: the loop that checks that the fifo holds enough samples.  On a buffer hole
the buffers before the hole are freed and the loop runs again from the new head.  Returns the
fifo and `p_buffer` as the loop leaves them (`[]` for `NULL`). -/
def checkEnough (end_date : mtime_t) :
    List aout_buffer_t → List aout_buffer_t × List aout_buffer_t
  | [] => ([], [])
  | p_first :: p_next =>
    if p_first.end_date ≥ end_date then
      (p_first :: p_next, p_first :: p_next)
    else
      match h : checkContiguous end_date p_first.end_date p_next with
      | (p_buffer, true) => checkEnough end_date p_buffer
      | (p_buffer, false) => (p_first :: p_next, p_buffer)
termination_by fifo => fifo.length
decreasing_by
  rename_i b rest _
  have hwalk : ∀ (l : List aout_buffer_t) (prev_date : mtime_t),
      (checkContiguous end_date prev_date l).1.length ≤ l.length := by
    intro l
    induction l with
    | nil => intro _; simp [checkContiguous]
    | cons c l ih =>
      intro prev_date
      unfold checkContiguous
      split
      · simp
      · split
        · simp
        · exact Nat.le_succ_of_le (ih c.end_date)
  have hlen := hwalk rest b.end_date
  rw [h] at hlen
  simp only [List.length_cons]
  exact Nat.lt_succ_of_le hlen

/-- Lines 120-220: the body of the loop over the inputs, for one input.  The `Bool` is
`false` when the body leaves the loop over the inputs with `break`. -/
def mixInput (mixer : audio_sample_format_t) (start_date end_date : mtime_t)
    (p_input : aout_input_t) : aout_input_t × Bool :=
  match p_input.fifo with
  | [] => (p_input, false)
  | _ :: _ =>
    match dropPast start_date p_input.fifo p_input.p_first_byte_to_mix with
    | ([], p_first_byte_to_mix) => (⟨[], p_first_byte_to_mix⟩, false)
    | (p_buffer :: p_next, p_first_byte_to_mix) =>
      let p_first_byte :=
        if mixer.non_linear then p_first_byte_to_mix
        else alignFirstByte mixer start_date p_buffer p_first_byte_to_mix
      match checkEnough end_date (p_buffer :: p_next) with
      | (fifo, []) => (⟨fifo, p_first_byte⟩, false)
      | (fifo, _ :: _) => (⟨fifo, p_first_byte⟩, true)

/-- Lines 118-221: the loop over the inputs.  The `Bool` is `true` when the loop ran through
(`i == i_nb_inputs`); the inputs after the one where it stopped are untouched. -/
def mixInputs (mixer : audio_sample_format_t) (start_date end_date : mtime_t) :
    List aout_input_t → List aout_input_t × Bool
  | [] => ([], true)
  | p_input :: rest =>
    match mixInput mixer start_date end_date p_input with
    | (p_input1, false) => (p_input1 :: rest, false)
    | (p_input1, true) =>
      ((p_input1 :: (mixInputs mixer start_date end_date rest).1),
        (mixInputs mixer start_date end_date rest).2)

/-- Line 236: `p_aout->pp_inputs[0]->fifo.p_first`, the representative buffer handed to the
allocation (`none` when there is no input 0 or its fifo is empty). -/
def firstBuffer (pp_inputs : List aout_input_t) : Option aout_buffer_t :=
  match pp_inputs with
  | [] => none
  | p_input :: _ => p_input.fifo.head?

/-- Lines 232-233: the duration asked from the allocation, computed in `u64`. -/
def allocDuration (p_aout : aout_instance_t) : Nat :=
  (to_ulong p_aout.output_i_nb_samples * 1000000 % ULONG_SIZE) / to_ulong p_aout.output_i_rate

/-- Lines 244-249: the output buffer, filled in. -/
def outputBuffer (p_aout : aout_instance_t) (start_date end_date : mtime_t) (addr : Nat) :
    aout_buffer_t :=
  { start_date := start_date
    end_date := end_date
    p_buffer := addr
    i_nb_bytes := Int.tdiv (p_aout.output_i_nb_samples * p_aout.mixer.i_bytes_per_frame)
      p_aout.mixer.i_frame_length
    i_nb_samples := p_aout.output_i_nb_samples }

/-- The start date that `MixBuffer` chooses for the cycle (lines 72-112), `none` when it
returns at line 110. -/
def cycleStart (env : aout_env) (p_aout : aout_instance_t) : Option mtime_t :=
  findStart (retrieveDate env p_aout).2 p_aout.pp_inputs

/-- The instance as `MixBuffer` leaves it after the loop over the inputs (lines 72-221) for a
cycle that starts at `start_date`, and whether the loop ran to its end. -/
def reconcile (env : aout_env) (p_aout : aout_instance_t) (start_date : mtime_t) :
    aout_instance_t × Bool :=
  let p_aout1 := (retrieveDate env p_aout).1
  let r := mixInputs p_aout1.mixer start_date (cycleEnd p_aout1 start_date) p_aout1.pp_inputs
  ({ p_aout1 with pp_inputs := r.1 }, r.2)

/-- `MixBuffer` (lines 64-258): try to prepare one output buffer. -/
def MixBuffer (env : aout_env) (p_aout : aout_instance_t) : mix_result :=
  let p_aout1 := (retrieveDate env p_aout).1
  match findStart (retrieveDate env p_aout).2 p_aout.pp_inputs with
  | none =>
    { ret := -1, p_aout := p_aout1, trace := [.mutex_lock, .mutex_unlock] }
  | some start_date =>
    let end_date := cycleEnd p_aout1 start_date
    match reconcile env p_aout start_date with
    | (p_aout2, false) =>
      { ret := -1, p_aout := p_aout2, trace := [.mutex_lock, .mutex_unlock] }
    | (p_aout2, true) =>
      match env.BufferAlloc (allocDuration p_aout2) (firstBuffer p_aout2.pp_inputs) with
      | none =>
        { ret := -1, p_aout := p_aout2, trace := [.mutex_lock, .mutex_unlock] }
      | some addr =>
        let p_output_buffer := outputBuffer p_aout2 start_date end_date addr
        { ret := 0
          p_aout := env.pf_do_work p_aout2 p_output_buffer
          trace := [.mutex_lock, .do_work p_aout2 p_output_buffer, .mutex_unlock,
            .OutputPlay p_output_buffer] }

/-- The blocks that a trace forwards to the output sink, in order. -/
def played : List aout_event → List aout_buffer_t
  | [] => []
  | .OutputPlay b :: rest => b :: played rest
  | _ :: rest => played rest

/-- The instances on which a trace enters the work routine of the mixer, in order. -/
def worked : List aout_event → List aout_instance_t
  | [] => []
  | .do_work p _ :: rest => p :: worked rest
  | _ :: rest => worked rest

/-! ## Vocabulary of the statements -/

/-- The start dates of the head buffers of the inputs whose fifo is not empty, in order. -/
def headStarts : List aout_input_t → List mtime_t
  | [] => []
  | p_input :: rest =>
    match p_input.fifo with
    | [] => headStarts rest
    | p_buffer :: _ => p_buffer.start_date :: headStarts rest

/-- The date `s` is the maximum of the dates of `l`. -/
def isMaximum (l : List mtime_t) (s : mtime_t) : Prop :=
  s ∈ l ∧ ∀ x ∈ l, x ≤ s

instance (l : List mtime_t) (s : mtime_t) : Decidable (isMaximum l s) := by
  unfold isMaximum
  exact inferInstance

/-- A buffer with the given dates; the payload is at address 4096 and holds no byte. -/
def bufferAt (start_date end_date : mtime_t) : aout_buffer_t :=
  { start_date := start_date, end_date := end_date, p_buffer := 4096, i_nb_bytes := 0,
    i_nb_samples := 0 }

/-- A linear format: 48000 Hz, 4 bytes per frame, frames of one sample. -/
def linearFormat : audio_sample_format_t :=
  { i_rate := 48000, i_bytes_per_frame := 4, i_frame_length := 1, non_linear := false }

/-- An environment at date 0 whose allocation succeeds and whose work routine changes
nothing. -/
def idleEnv : aout_env :=
  { mdate := 0, BufferAlloc := fun _ _ => some 8192, pf_do_work := fun p _ => p }

/-- An instance with an unset output clock, blocks of `i_nb_samples` samples at one sample per
microsecond, a linear mixer format and the given fifos. -/
def instanceOf (i_nb_samples : Int) (fifos : List (List aout_buffer_t)) : aout_instance_t :=
  { output_fifo_end_date := 0
    pp_inputs := fifos.map (fun fifo => { fifo := fifo, p_first_byte_to_mix := NULL })
    output_i_nb_samples := i_nb_samples
    output_i_rate := 1000000
    mixer := linearFormat }

/-- From position 1 to position `k`, every buffer of the fifo starts at the date where the
buffer before it ends. -/
def contiguousUpTo (fifo : List aout_buffer_t) (k : Nat) : Prop :=
  ∀ i, 1 ≤ i → i ≤ k →
    ∃ a c, fifo[i - 1]? = some a ∧ fifo[i]? = some c ∧ c.start_date = a.end_date

/-- The fifo holds a contiguous chain from its head to a buffer that ends at `end_date` or
later: some position `k` holds a buffer with `end_date` at least `end_date` and the buffers
are contiguous up to `k`. -/
def reachesEnd (end_date : mtime_t) (fifo : List aout_buffer_t) : Prop :=
  ∃ k b, fifo[k]? = some b ∧ b.end_date ≥ end_date ∧ contiguousUpTo fifo k

/-- The buffers of `l`, which follow a buffer that ends at `prev_date`, go on contiguously up
to a buffer that ends at `end_date` or later. -/
def chainFrom (end_date : mtime_t) : mtime_t → List aout_buffer_t → Prop
  | _, [] => False
  | prev_date, c :: rest =>
    prev_date = c.start_date ∧ (c.end_date ≥ end_date ∨ chainFrom end_date c.end_date rest)

/-- The buffers of `l`, which follow a buffer that ends at `prev_date`, go on contiguously,
each ending before `end_date`, up to position `j`, where the buffer does not start at the date
where the one before it ends. -/
def holeAt (end_date : mtime_t) : mtime_t → List aout_buffer_t → Nat → Prop
  | _, [], _ => False
  | prev_date, c :: _, 0 => prev_date ≠ c.start_date
  | prev_date, c :: rest, j + 1 =>
    prev_date = c.start_date ∧ c.end_date < end_date ∧ holeAt end_date c.end_date rest j

/-- An instance of two inputs with an unset clock and blocks of 20 microseconds; the second
fifo starts with a buffer that ends before, and a buffer that ends at, the start date 20 of the
cycle. -/
def staleInstance : aout_instance_t :=
  instanceOf 20 [[bufferAt 20 60], [bufferAt 0 10, bufferAt 10 20, bufferAt 20 50]]

/-- Along the fifo no buffer ends earlier than a buffer before it. -/
def endsSorted (fifo : List aout_buffer_t) : Prop :=
  List.Pairwise (fun a b => a.end_date ≤ b.end_date) fifo

instance (fifo : List aout_buffer_t) : Decidable (endsSorted fifo) := by
  unfold endsSorted
  exact inferInstance

/-- The buffers of every input fifo of an instance, fifo by fifo. -/
def fifos (p_aout : aout_instance_t) : List (List aout_buffer_t) :=
  p_aout.pp_inputs.map (fun q => q.fifo)

/-- An instance with an unset clock and blocks of 20 microseconds; the second fifo holds a
buffer of the past and then a buffer that is too short. -/
def driftInstance : aout_instance_t :=
  instanceOf 20 [[bufferAt 20 30, bufferAt 30 60], [bufferAt 0 10, bufferAt 35 38]]

/-- An instance with the output clock at 50 and blocks of 70 microseconds; the second buffer of
the fifo lies inside the first. -/
def overlapInstance : aout_instance_t :=
  { instanceOf 70 [[bufferAt 0 100, bufferAt 10 20]] with output_fifo_end_date := 50 }

/-- An instance with an unset clock and blocks of 20 microseconds; the second buffer of the
fifo is earlier than the first. -/
def backwardInstance : aout_instance_t :=
  instanceOf 20 [[bufferAt 100 110, bufferAt 0 50]]

/-- The dates of the buffers of every input fifo of an instance. -/
def fifoDates (p_aout : aout_instance_t) : List (List (mtime_t × mtime_t)) :=
  p_aout.pp_inputs.map (fun q => q.fifo.map (fun b => (b.start_date, b.end_date)))

/-- An instance with the output clock at 50 and blocks of 70 microseconds, whose only fifo holds
a buffer of the past and a buffer that does not reach the end date 120. -/
def waitingInstance : aout_instance_t :=
  { instanceOf 70 [[bufferAt 0 10, bufferAt 40 60]] with output_fifo_end_date := 50 }

/-- An instance with an unset clock and blocks of 30 microseconds; the first fifo holds nothing
between the dates 10 and 50, the second fifo starts at 20. -/
def gapInstance : aout_instance_t :=
  instanceOf 30 [[bufferAt 0 10, bufferAt 50 100], [bufferAt 20 100]]

/-- The number of times a trace takes the lock. -/
def lockCount : List aout_event → Nat
  | [] => 0
  | .mutex_lock :: rest => lockCount rest + 1
  | _ :: rest => lockCount rest

/-- The number of times a trace releases the lock. -/
def unlockCount : List aout_event → Nat
  | [] => 0
  | .mutex_unlock :: rest => unlockCount rest + 1
  | _ :: rest => unlockCount rest

/-- The lock discipline of a trace, read from its first call on, `held` telling whether the
lock is held: the lock is taken only when it is free and released only when it is held, the
work routine of the mixer runs only under the lock, the output is played only without it, and
the lock is free when the trace is over. -/
def lockDiscipline : Bool → List aout_event → Bool
  | held, [] => !held
  | held, .mutex_lock :: rest => !held && lockDiscipline true rest
  | held, .mutex_unlock :: rest => held && lockDiscipline false rest
  | held, .do_work _ _ :: rest => held && lockDiscipline held rest
  | held, .OutputPlay _ :: rest => !held && lockDiscipline held rest

/-- Input by input, the fifo of `after` is a suffix of the fifo of `before`: buffers were
removed from the front only, and no fifo received a buffer. -/
def fifosShrunk (after before : List aout_input_t) : Prop :=
  List.Forall₂ (fun q1 q => q1.fifo <:+ q.fifo) after before

/-- Lines 186-218: one turn of the loop that checks for enough samples.  Either the turn leaves
the loop (`Sum.inr`, with the fifo and `p_buffer` as they are then), or it dropped the buffers
before a hole and the loop turns again on the new fifo (`Sum.inl`). -/
def checkEnoughTurn (end_date : mtime_t) :
    List aout_buffer_t → List aout_buffer_t ⊕ (List aout_buffer_t × List aout_buffer_t)
  | [] => Sum.inr ([], [])
  | p_first :: p_next =>
    if p_first.end_date ≥ end_date then
      Sum.inr (p_first :: p_next, p_first :: p_next)
    else
      match checkContiguous end_date p_first.end_date p_next with
      | (p_buffer, true) => Sum.inl p_buffer
      | (p_buffer, false) => Sum.inr (p_first :: p_next, p_buffer)

/-- The loop of lines 184-219 run for at most `turns` turns: `none` when the loop has not been
left by then. -/
def checkEnoughTurns (end_date : mtime_t) :
    Nat → List aout_buffer_t → Option (List aout_buffer_t × List aout_buffer_t)
  | 0, _ => none
  | turns + 1, fifo =>
    match checkEnoughTurn end_date fifo with
    | Sum.inl fifo1 => checkEnoughTurns end_date turns fifo1
    | Sum.inr r => some r

/-- The byte offset that lines 152-156 compute for the head buffer `p_buffer`, as the signed
value it is before its conversion to `unsigned long`: the position in the payload that
corresponds to `start_date`. -/
def expectedOffset (mixer : audio_sample_format_t) (start_date : mtime_t)
    (p_buffer : aout_buffer_t) : Int :=
  Int.tdiv (Int.tdiv
    ((start_date - p_buffer.start_date) * mixer.i_bytes_per_frame * mixer.i_rate)
    mixer.i_frame_length) 1000000

/-- The offset of the byte pointer `p_first_byte_to_mix` in the payload of `p_buffer` (the
`mixer_nb_bytes` of line 163). -/
def byteOffset (p_buffer : aout_buffer_t) (p_first_byte_to_mix : Nat) : Int :=
  (p_first_byte_to_mix : Int) - (p_buffer.p_buffer : Int)

/-- A buffer of 3000 frames of `linearFormat` (62500 microseconds, 12000 bytes) that starts at
`start_date`, its payload at address `addr`. -/
def pcmBuffer (start_date : mtime_t) (addr : Nat) : aout_buffer_t :=
  { start_date := start_date, end_date := start_date + 62500, p_buffer := addr,
    i_nb_bytes := 12000, i_nb_samples := 3000 }

/-- An instance that mixes `linearFormat` into blocks of 480 samples at 48000 Hz (10000
microseconds), with the given output clock and inputs. -/
def pcmInstance (clock : mtime_t) (pp_inputs : List aout_input_t) : aout_instance_t :=
  { output_fifo_end_date := clock
    pp_inputs := pp_inputs
    output_i_nb_samples := 480
    output_i_rate := 48000
    mixer := linearFormat }

/-- The byte pointer of an input is `NULL` or points into the payload of the head buffer of its
fifo (the end of the payload included). -/
def firstByteInHead (p_input : aout_input_t) : Bool :=
  match p_input.fifo with
  | [] => decide (p_input.p_first_byte_to_mix = NULL)
  | p_buffer :: _ =>
    decide (p_input.p_first_byte_to_mix = NULL)
      || (decide (p_buffer.p_buffer ≤ p_input.p_first_byte_to_mix)
        && decide ((p_input.p_first_byte_to_mix : Int)
            ≤ (p_buffer.p_buffer : Int) + p_buffer.i_nb_bytes))

/-- The distance between two byte offsets. -/
def offsetDistance (x y : Int) : Nat := (x - y).natAbs

/-- An instance whose output clock is at 20 and whose only input has consumed one frame of a
buffer that starts at 0. -/
def resumedInstance : aout_instance_t :=
  pcmInstance 20 [⟨[pcmBuffer 0 4096], 4100⟩]

/-- An instance with an unset clock and two inputs; the buffer of the second input starts 40
microseconds after the buffer of the first. -/
def skewedInstance : aout_instance_t :=
  pcmInstance 0 [⟨[pcmBuffer 0 4096], NULL⟩, ⟨[pcmBuffer 40 20480], NULL⟩]

/-- An instance with an unset clock and two inputs; the first fifo holds nothing between the
dates 62500 and 125000, the second fifo starts at 70000. -/
def lateHeadInstance : aout_instance_t :=
  pcmInstance 0 [⟨[pcmBuffer 0 4096, pcmBuffer 125000 20480], NULL⟩,
    ⟨[pcmBuffer 70000 36864], NULL⟩]

/-- An instance with an unset clock and one input whose second buffer starts 500 microseconds
after the end of the first; the blocks are longer than the first buffer. -/
def holeInstance : aout_instance_t :=
  { pcmInstance 0 [⟨[pcmBuffer 0 4096, pcmBuffer 63000 20480], NULL⟩] with
    output_i_nb_samples := 3024 }

/-- The byte pointers of the inputs of an instance. -/
def firstBytes (p_aout : aout_instance_t) : List Nat :=
  p_aout.pp_inputs.map (fun q => q.p_first_byte_to_mix)

/-! ## Lemmas on the pieces -/

theorem bufferAt_start_date (s e : mtime_t) : (bufferAt s e).start_date = s := rfl

theorem bufferAt_end_date (s e : mtime_t) : (bufferAt s e).end_date = e := rfl

theorem retrieveDate_inputs (env : aout_env) (p_aout : aout_instance_t) :
    (retrieveDate env p_aout).1.pp_inputs = p_aout.pp_inputs := by
  unfold retrieveDate
  dsimp only
  split <;> rfl

theorem retrieveDate_mixer (env : aout_env) (p_aout : aout_instance_t) :
    (retrieveDate env p_aout).1.mixer = p_aout.mixer := by
  unfold retrieveDate
  dsimp only
  split <;> rfl

theorem retrieveDate_samples (env : aout_env) (p_aout : aout_instance_t) :
    (retrieveDate env p_aout).1.output_i_nb_samples = p_aout.output_i_nb_samples := by
  unfold retrieveDate
  dsimp only
  split <;> rfl

theorem retrieveDate_rate (env : aout_env) (p_aout : aout_instance_t) :
    (retrieveDate env p_aout).1.output_i_rate = p_aout.output_i_rate := by
  unfold retrieveDate
  dsimp only
  split <;> rfl

theorem cycleEnd_retrieveDate (env : aout_env) (p_aout : aout_instance_t) (s : mtime_t) :
    cycleEnd (retrieveDate env p_aout).1 s = cycleEnd p_aout s := by
  unfold cycleEnd
  rw [retrieveDate_samples, retrieveDate_rate]

/-- The loop over the start dates computes a running maximum as long as no date is
negative. -/
theorem latestStart_foldl (l : List aout_input_t) :
    ∀ acc : mtime_t, 0 ≤ acc → (∀ p ∈ l, p.fifo ≠ []) → (∀ x ∈ headStarts l, 0 ≤ x) →
      latestStart acc l = (List.foldl max acc (headStarts l), true) := by
  induction l with
  | nil => intro acc _ _ _; simp [latestStart, headStarts]
  | cons p rest ih =>
    intro acc hacc hfull hpos
    have hp : p.fifo ≠ [] := hfull p (List.mem_cons_self _ _)
    have hrest : ∀ q ∈ rest, q.fifo ≠ [] := fun q hq => hfull q (List.mem_cons_of_mem _ hq)
    cases hf : p.fifo with
    | nil => exact absurd hf hp
    | cons b tl =>
      have hb : 0 ≤ b.start_date := hpos b.start_date (by simp [headStarts, hf])
      have hpos2 : ∀ x ∈ headStarts rest, 0 ≤ x := by
        intro x hx
        exact hpos x (by simp [headStarts, hf, hx])
      simp only [latestStart, headStarts, hf, List.foldl_cons]
      split
      · rename_i hc
        have hmax : max acc b.start_date = b.start_date := by
          rcases hc with h0 | hlt
          · exact max_eq_right (by rw [h0]; exact hb)
          · exact max_eq_right (le_of_lt hlt)
        rw [hmax]
        exact ih b.start_date hb hrest hpos2
      · rename_i hc
        have hmax : max acc b.start_date = acc := by
          apply max_eq_left
          by_contra hcon
          exact hc (Or.inr (lt_of_not_le hcon))
        rw [hmax]
        exact ih acc hacc hrest hpos2

theorem foldl_max_ge (l : List mtime_t) :
    ∀ acc : mtime_t, acc ≤ List.foldl max acc l ∧ ∀ x ∈ l, x ≤ List.foldl max acc l := by
  induction l with
  | nil => intro acc; simp
  | cons y l ih =>
    intro acc
    simp only [List.foldl_cons, List.mem_cons]
    have h := ih (max acc y)
    refine ⟨le_trans (le_max_left _ _) h.1, ?_⟩
    intro x hx
    rcases hx with rfl | hx
    · exact le_trans (le_max_right _ _) h.1
    · exact h.2 x hx

theorem foldl_max_mem (l : List mtime_t) :
    ∀ acc : mtime_t, List.foldl max acc l = acc ∨ List.foldl max acc l ∈ l := by
  induction l with
  | nil => intro acc; simp
  | cons y l ih =>
    intro acc
    simp only [List.foldl_cons, List.mem_cons]
    rcases ih (max acc y) with h | h
    · rcases max_choice acc y with hm | hm
      · left; rw [h, hm]
      · right; left; rw [h, hm]
    · right; right; exact h

theorem headStarts_ne_nil (l : List aout_input_t) (hne : l ≠ [])
    (hfull : ∀ p ∈ l, p.fifo ≠ []) : headStarts l ≠ [] := by
  cases l with
  | nil => exact absurd rfl hne
  | cons p rest =>
    cases hf : p.fifo with
    | nil => exact absurd hf (hfull p (List.mem_cons_self _ _))
    | cons b tl => simp [headStarts, hf]

/-- An input with an empty fifo stops the loop over the inputs. -/
theorem mixInput_empty (mixer : audio_sample_format_t) (s e : mtime_t) (p : aout_input_t)
    (h : p.fifo = []) : (mixInput mixer s e p).2 = false := by
  unfold mixInput
  rw [h]

theorem mixInputs_empty (mixer : audio_sample_format_t) (s e : mtime_t)
    (l : List aout_input_t) (h : ∃ p ∈ l, p.fifo = []) : (mixInputs mixer s e l).2 = false := by
  induction l with
  | nil => obtain ⟨p, hp, _⟩ := h; cases hp
  | cons q rest ih =>
    unfold mixInputs
    split
    · rfl
    · rename_i q1 hq
      obtain ⟨p, hp, hfifo⟩ := h
      rcases List.mem_cons.mp hp with rfl | hp
      · have := mixInput_empty mixer s e p hfifo
        rw [hq] at this
        cases this
      · exact ih ⟨p, hp, hfifo⟩

theorem latestStart_empty (l : List aout_input_t) (h : ∃ p ∈ l, p.fifo = []) :
    ∀ acc : mtime_t, (latestStart acc l).2 = false := by
  induction l with
  | nil => obtain ⟨p, hp, _⟩ := h; cases hp
  | cons q rest ih =>
    intro acc
    unfold latestStart
    split
    · rfl
    · rename_i b tl hq
      obtain ⟨p, hp, hfifo⟩ := h
      rcases List.mem_cons.mp hp with rfl | hp
      · rw [hfifo] at hq; cases hq
      · split
        · exact ih ⟨p, hp, hfifo⟩ _
        · exact ih ⟨p, hp, hfifo⟩ _

/-! ### The loop that checks for enough samples, case by case -/

theorem checkEnough_nil (end_date : mtime_t) : checkEnough end_date [] = ([], []) := by
  rw [checkEnough]

theorem checkEnough_enough (end_date : mtime_t) (b : aout_buffer_t) (l : List aout_buffer_t)
    (hb : b.end_date ≥ end_date) : checkEnough end_date (b :: l) = (b :: l, b :: l) := by
  rw [checkEnough, if_pos hb]

theorem checkEnough_hole (end_date : mtime_t) (b : aout_buffer_t) (l p : List aout_buffer_t)
    (hb : ¬ b.end_date ≥ end_date)
    (hwalk : checkContiguous end_date b.end_date l = (p, true)) :
    checkEnough end_date (b :: l) = checkEnough end_date p := by
  rw [checkEnough, if_neg hb]
  split
  · rename_i q hq
    rw [hwalk] at hq
    cases hq
    rfl
  · rename_i q hq
    rw [hwalk] at hq
    cases hq

theorem checkEnough_stop (end_date : mtime_t) (b : aout_buffer_t) (l p : List aout_buffer_t)
    (hb : ¬ b.end_date ≥ end_date)
    (hwalk : checkContiguous end_date b.end_date l = (p, false)) :
    checkEnough end_date (b :: l) = (b :: l, p) := by
  rw [checkEnough, if_neg hb]
  split
  · rename_i q hq
    rw [hwalk] at hq
    cases hq
  · rename_i q hq
    rw [hwalk] at hq
    cases hq
    rfl

/-! ### A full loop over the inputs leaves every fifo with enough contiguous samples -/

theorem checkContiguous_chain (end_date : mtime_t) (l : List aout_buffer_t) :
    ∀ (prev_date : mtime_t) (p : List aout_buffer_t),
      checkContiguous end_date prev_date l = (p, false) → p ≠ [] →
      chainFrom end_date prev_date l := by
  induction l with
  | nil =>
    intro prev_date p h hp
    simp only [checkContiguous, Prod.mk.injEq] at h
    exact absurd h.1.symm hp
  | cons c rest ih =>
    intro prev_date p h hp
    unfold checkContiguous at h
    unfold chainFrom
    split at h
    · cases h
    · rename_i hprev
      have hprev2 : prev_date = c.start_date := not_not.mp hprev
      split at h
      · rename_i hc
        exact ⟨hprev2, Or.inl hc⟩
      · exact ⟨hprev2, Or.inr (ih c.end_date p h hp)⟩

theorem chainFrom_reachesEnd (end_date : mtime_t) (l : List aout_buffer_t) :
    ∀ b : aout_buffer_t, chainFrom end_date b.end_date l → reachesEnd end_date (b :: l) := by
  induction l with
  | nil => intro b h; exact absurd h (by simp [chainFrom])
  | cons c rest ih =>
    intro b h
    unfold chainFrom at h
    obtain ⟨hbc, hc | hrest⟩ := h
    · refine ⟨1, c, by simp, hc, ?_⟩
      intro i h1 hi
      have hi1 : i = 1 := le_antisymm hi h1
      subst hi1
      exact ⟨b, c, by simp, by simp, hbc.symm⟩
    · obtain ⟨k, d, hk, hd, hchain⟩ := ih c hrest
      refine ⟨k + 1, d, ?_, hd, ?_⟩
      · rw [List.getElem?_cons_succ]
        exact hk
      · intro i h1 hi
        by_cases hi1 : i = 1
        · subst hi1
          exact ⟨b, c, by simp, by simp, hbc.symm⟩
        · obtain ⟨j, rfl⟩ : ∃ j, i = j + 1 := ⟨i - 1, by omega⟩
          obtain ⟨a, e, ha, he, hae⟩ := hchain j (by omega) (by omega)
          refine ⟨a, e, ?_, ?_, hae⟩
          · obtain ⟨m, rfl⟩ : ∃ m, j = m + 1 := ⟨j - 1, by omega⟩
            simpa using ha
          · rw [List.getElem?_cons_succ]
            exact he

theorem reachesEnd_head (end_date : mtime_t) (b : aout_buffer_t) (l : List aout_buffer_t)
    (hb : b.end_date ≥ end_date) : reachesEnd end_date (b :: l) := by
  refine ⟨0, b, by simp, hb, ?_⟩
  intro i h1 hi
  omega

theorem checkEnough_reachesEnd (end_date : mtime_t) (fifo : List aout_buffer_t) :
    (checkEnough end_date fifo).2 ≠ [] → reachesEnd end_date (checkEnough end_date fifo).1 := by
  induction fifo using checkEnough.induct end_date with
  | case1 => intro h; simp [checkEnough_nil] at h
  | case2 b l hb =>
    intro _
    rw [checkEnough_enough end_date b l hb]
    exact reachesEnd_head end_date b l hb
  | case3 b l hb p hwalk ih =>
    rw [checkEnough_hole end_date b l p hb hwalk]
    exact ih
  | case4 b l hb p hwalk =>
    rw [checkEnough_stop end_date b l p hb hwalk]
    intro hp
    exact chainFrom_reachesEnd end_date l b (checkContiguous_chain end_date l b.end_date p hwalk hp)

theorem mixInput_reachesEnd (mixer : audio_sample_format_t) (s e : mtime_t) (p : aout_input_t)
    (h : (mixInput mixer s e p).2 = true) : reachesEnd e (mixInput mixer s e p).1.fifo := by
  unfold mixInput at h ⊢
  split at h
  · cases h
  · split at h
    · cases h
    · rename_i b l first hdrop
      simp only [hdrop] at h ⊢
      have hce := checkEnough_reachesEnd e (b :: l)
      split at h
      · cases h
      · rename_i fifo c tl hres
        simp only [hres] at hce ⊢
        exact hce (by simp)

theorem mixInputs_reachesEnd (mixer : audio_sample_format_t) (s e : mtime_t)
    (l : List aout_input_t) (h : (mixInputs mixer s e l).2 = true) :
    ∀ q ∈ (mixInputs mixer s e l).1, reachesEnd e q.fifo := by
  induction l with
  | nil => intro q hq; simp [mixInputs] at hq
  | cons p rest ih =>
    unfold mixInputs at h ⊢
    split at h
    · cases h
    · rename_i p1 hp
      simp only [hp] at h ⊢
      intro q hq
      rcases List.mem_cons.mp hq with rfl | hq
      · have := mixInput_reachesEnd mixer s e p (by rw [hp])
        rw [hp] at this
        exact this
      · exact ih h q hq

theorem reachesEnd_ne_nil (end_date : mtime_t) (fifo : List aout_buffer_t)
    (h : reachesEnd end_date fifo) : fifo ≠ [] := by
  obtain ⟨k, b, hk, _, _⟩ := h
  intro hnil
  rw [hnil] at hk
  simp at hk

/-! ### The removal of the buffers of the past -/

theorem dropPast_fifo (s : mtime_t) (fifo : List aout_buffer_t) :
    ∀ first : Nat,
      (dropPast s fifo first).1 = fifo.dropWhile (fun b => decide (b.end_date < s)) := by
  induction fifo with
  | nil => intro first; rfl
  | cons b rest ih =>
    intro first
    unfold dropPast
    by_cases hb : b.end_date < s
    · rw [if_pos hb, ih NULL]
      simp [List.dropWhile, hb]
    · rw [if_neg hb]
      simp [List.dropWhile, hb]

theorem dropPast_first_byte (s : mtime_t) (fifo : List aout_buffer_t) :
    ∀ first : Nat,
      (dropPast s fifo first).2
        = if fifo.takeWhile (fun b => decide (b.end_date < s)) = [] then first else NULL := by
  induction fifo with
  | nil => intro first; rfl
  | cons b rest ih =>
    intro first
    unfold dropPast
    by_cases hb : b.end_date < s
    · rw [if_pos hb, ih NULL]
      simp [List.takeWhile, hb]
    · rw [if_neg hb]
      simp [List.takeWhile, hb]

theorem mixInput_fifo (mixer : audio_sample_format_t) (s e : mtime_t) (p : aout_input_t) :
    (mixInput mixer s e p).1.fifo
      = (checkEnough e (dropPast s p.fifo p.p_first_byte_to_mix).1).1 := by
  unfold mixInput
  split
  · rename_i hf
    rw [hf]
    simp [dropPast, checkEnough_nil]
  · split
    · rename_i hdrop
      simp [hdrop, checkEnough_nil]
    · rename_i b l first hdrop
      simp only [hdrop]
      split <;> rename_i hres <;> simp [hres]

theorem mixInput_dropPast_nil (mixer : audio_sample_format_t) (s e : mtime_t)
    (p : aout_input_t) (h : (dropPast s p.fifo p.p_first_byte_to_mix).1 = []) :
    (mixInput mixer s e p).2 = false := by
  unfold mixInput
  split
  · rfl
  · split
    · rfl
    · rename_i b l first hdrop
      rw [hdrop] at h
      cases h

theorem mixInputs_cons_pass (mixer : audio_sample_format_t) (s e : mtime_t)
    (p p1 : aout_input_t) (rest : List aout_input_t)
    (h : mixInput mixer s e p = (p1, true)) :
    mixInputs mixer s e (p :: rest)
      = (p1 :: (mixInputs mixer s e rest).1, (mixInputs mixer s e rest).2) := by
  rw [mixInputs, h]

theorem mixInputs_cons_stop (mixer : audio_sample_format_t) (s e : mtime_t)
    (p p1 : aout_input_t) (rest : List aout_input_t)
    (h : mixInput mixer s e p = (p1, false)) :
    mixInputs mixer s e (p :: rest) = (p1 :: rest, false) := by
  rw [mixInputs, h]

theorem mixInputs_append (mixer : audio_sample_format_t) (s e : mtime_t)
    (pre post : List aout_input_t) (h : (mixInputs mixer s e pre).2 = true) :
    mixInputs mixer s e (pre ++ post)
      = ((mixInputs mixer s e pre).1 ++ (mixInputs mixer s e post).1,
          (mixInputs mixer s e post).2) := by
  induction pre with
  | nil => simp [mixInputs]
  | cons q rest ih =>
    rw [List.cons_append]
    cases hq : mixInput mixer s e q with
    | mk q1 ok =>
      cases ok with
      | false =>
        rw [mixInputs_cons_stop mixer s e q q1 rest hq] at h
        cases h
      | true =>
        rw [mixInputs_cons_pass mixer s e q q1 rest hq] at h ⊢
        rw [mixInputs_cons_pass mixer s e q q1 (rest ++ post) hq, ih h]
        simp

theorem mixInputs_stop (mixer : audio_sample_format_t) (s e : mtime_t)
    (pre post : List aout_input_t) (p : aout_input_t)
    (hpre : (mixInputs mixer s e pre).2 = true) (hp : (mixInput mixer s e p).2 = false) :
    mixInputs mixer s e (pre ++ p :: post)
      = ((mixInputs mixer s e pre).1 ++ (mixInput mixer s e p).1 :: post, false) := by
  rw [mixInputs_append mixer s e pre (p :: post) hpre]
  cases hq : mixInput mixer s e p with
  | mk q1 ok =>
    rw [hq] at hp
    cases hp
    rw [mixInputs_cons_stop mixer s e p q1 post hq]

/-! ### The first buffer hole -/

theorem checkContiguous_hole (end_date : mtime_t) (l : List aout_buffer_t) :
    ∀ (prev_date : mtime_t) (j : Nat), holeAt end_date prev_date l j →
      checkContiguous end_date prev_date l = (l.drop j, true) := by
  induction l with
  | nil => intro prev_date j h; cases j <;> exact absurd h (by simp [holeAt])
  | cons c rest ih =>
    intro prev_date j h
    cases j with
    | zero =>
      simp only [holeAt] at h
      simp [checkContiguous, h]
    | succ j =>
      simp only [holeAt] at h
      obtain ⟨hprev, hc, hrest⟩ := h
      unfold checkContiguous
      rw [if_neg (not_not.mpr hprev), if_neg (not_le.mpr hc), ih c.end_date j hrest]
      rfl

theorem holeAt_of_index (end_date : mtime_t) :
    ∀ (j : Nat) (b : aout_buffer_t) (l : List aout_buffer_t),
      contiguousUpTo (b :: l) j →
      (∃ a c, (b :: l)[j]? = some a ∧ (b :: l)[j + 1]? = some c ∧ c.start_date ≠ a.end_date) →
      (∀ i d, 1 ≤ i → i ≤ j → (b :: l)[i]? = some d → d.end_date < end_date) →
      holeAt end_date b.end_date l j := by
  intro j
  induction j with
  | zero =>
    intro b l _ hhole _
    obtain ⟨a, c, ha, hc, hne⟩ := hhole
    cases l with
    | nil => simp at hc
    | cons c2 rest =>
      simp at ha hc
      subst ha hc
      simp only [holeAt]
      exact fun h => hne h.symm
  | succ j ih =>
    intro b l hchain hhole hshort
    cases l with
    | nil =>
      obtain ⟨a, c, _, hc, _⟩ := hhole
      simp at hc
    | cons c2 rest =>
      simp only [holeAt]
      obtain ⟨a1, c1, ha1, hc1, hac⟩ := hchain 1 (le_refl _) (by omega)
      simp at ha1 hc1
      subst ha1 hc1
      refine ⟨hac.symm, hshort 1 c2 (le_refl _) (by omega) (by simp), ?_⟩
      apply ih c2 rest
      · intro i h1 hi
        obtain ⟨a, c, ha, hc, hcon⟩ := hchain (i + 1) (by omega) (by omega)
        refine ⟨a, c, ?_, ?_, hcon⟩
        · obtain ⟨m, rfl⟩ : ∃ m, i = m + 1 := ⟨i - 1, by omega⟩
          simpa using ha
        · simpa using hc
      · obtain ⟨a, c, ha, hc, hne⟩ := hhole
        exact ⟨a, c, by simpa using ha, by simpa using hc, hne⟩
      · intro i d h1 hi hd
        exact hshort (i + 1) d (by omega) (by omega) (by simpa using hd)

/-! ### Running the loop over the inputs a second time -/

theorem checkContiguous_suffix (end_date : mtime_t) (l : List aout_buffer_t) :
    ∀ prev_date : mtime_t, (checkContiguous end_date prev_date l).1 <:+ l := by
  induction l with
  | nil => intro prev_date; simp [checkContiguous]
  | cons c rest ih =>
    intro prev_date
    unfold checkContiguous
    split
    · exact List.suffix_refl _
    · split
      · exact List.suffix_refl _
      · exact (ih c.end_date).trans (List.suffix_cons c rest)

theorem checkEnough_suffix (end_date : mtime_t) (fifo : List aout_buffer_t) :
    (checkEnough end_date fifo).1 <:+ fifo := by
  induction fifo using checkEnough.induct end_date with
  | case1 => rw [checkEnough_nil]
  | case2 b l hb => rw [checkEnough_enough end_date b l hb]
  | case3 b l hb p hwalk ih =>
    rw [checkEnough_hole end_date b l p hb hwalk]
    have hp : p <:+ l := by
      have := checkContiguous_suffix end_date l b.end_date
      rw [hwalk] at this
      exact this
    exact ih.trans (hp.trans (List.suffix_cons b l))
  | case4 b l hb p hwalk => rw [checkEnough_stop end_date b l p hb hwalk]

/-- The loop that checks for enough samples changes nothing when it runs again on the fifo it
left. -/
theorem checkEnough_idem (end_date : mtime_t) (fifo : List aout_buffer_t) :
    checkEnough end_date (checkEnough end_date fifo).1 = checkEnough end_date fifo := by
  induction fifo using checkEnough.induct end_date with
  | case1 =>
    rw [checkEnough_nil]
    exact checkEnough_nil end_date
  | case2 b l hb =>
    rw [checkEnough_enough end_date b l hb]
    exact checkEnough_enough end_date b l hb
  | case3 b l hb p hwalk ih =>
    rw [checkEnough_hole end_date b l p hb hwalk]
    exact ih
  | case4 b l hb p hwalk =>
    rw [checkEnough_stop end_date b l p hb hwalk]
    exact checkEnough_stop end_date b l p hb hwalk

theorem dropWhile_fresh (s : mtime_t) (d : List aout_buffer_t)
    (h : ∀ b ∈ d, ¬ b.end_date < s) :
    d.dropWhile (fun b => decide (b.end_date < s)) = d := by
  cases d with
  | nil => rfl
  | cons b rest =>
    have hb := h b (List.mem_cons_self _ _)
    simp [List.dropWhile, hb]

theorem endsSorted_dropWhile_fresh (s : mtime_t) (l : List aout_buffer_t)
    (h : endsSorted l) :
    ∀ b ∈ l.dropWhile (fun b => decide (b.end_date < s)), ¬ b.end_date < s := by
  induction l with
  | nil => intro b hb; simp at hb
  | cons c rest ih =>
    have hrest : endsSorted rest := (List.pairwise_cons.mp h).2
    by_cases hc : c.end_date < s
    · intro b hb
      have : (c :: rest).dropWhile (fun b => decide (b.end_date < s))
          = rest.dropWhile (fun b => decide (b.end_date < s)) := by
        simp [List.dropWhile, hc]
      rw [this] at hb
      exact ih hrest b hb
    · intro b hb
      have : (c :: rest).dropWhile (fun b => decide (b.end_date < s)) = c :: rest := by
        simp [List.dropWhile, hc]
      rw [this] at hb
      rcases List.mem_cons.mp hb with rfl | hb
      · exact hc
      · have hle := (List.pairwise_cons.mp h).1 b hb
        intro hlt
        exact hc (lt_of_le_of_lt hle hlt)

theorem mixInput_passes (mixer : audio_sample_format_t) (s e : mtime_t) (p : aout_input_t) :
    (mixInput mixer s e p).2
      = !(checkEnough e (dropPast s p.fifo p.p_first_byte_to_mix).1).2.isEmpty := by
  unfold mixInput
  split
  · rename_i hf
    rw [hf]
    simp [dropPast, checkEnough_nil]
  · split
    · rename_i hdrop
      simp [hdrop, checkEnough_nil]
    · rename_i b l first hdrop
      simp only [hdrop]
      split <;> rename_i hres <;> simp [hres]

/-- The body of the loop over the inputs, run again on the input it left, leaves the same fifo
and the same verdict, when no buffer of the fifo ends earlier than a buffer before it. -/
theorem mixInput_idem (mixer : audio_sample_format_t) (s e : mtime_t) (p : aout_input_t)
    (h : endsSorted p.fifo) :
    (mixInput mixer s e (mixInput mixer s e p).1).1.fifo = (mixInput mixer s e p).1.fifo
      ∧ (mixInput mixer s e (mixInput mixer s e p).1).2 = (mixInput mixer s e p).2 := by
  have hfresh := endsSorted_dropWhile_fresh s p.fifo h
  have hsuf := checkEnough_suffix e (p.fifo.dropWhile (fun b => decide (b.end_date < s)))
  have hkeep : ((checkEnough e (p.fifo.dropWhile (fun b => decide (b.end_date < s)))).1).dropWhile
      (fun b => decide (b.end_date < s))
      = (checkEnough e (p.fifo.dropWhile (fun b => decide (b.end_date < s)))).1 :=
    dropWhile_fresh s _ (fun b hb => hfresh b (hsuf.subset hb))
  constructor
  · rw [mixInput_fifo mixer s e (mixInput mixer s e p).1, dropPast_fifo, mixInput_fifo,
      dropPast_fifo, hkeep, checkEnough_idem]
  · rw [mixInput_passes mixer s e (mixInput mixer s e p).1, dropPast_fifo, mixInput_fifo,
      dropPast_fifo, hkeep, checkEnough_idem, mixInput_passes, dropPast_fifo]

theorem mixInputs_idem (mixer : audio_sample_format_t) (s e : mtime_t)
    (l : List aout_input_t) (h : ∀ q ∈ l, endsSorted q.fifo) :
    (mixInputs mixer s e (mixInputs mixer s e l).1).1.map (fun q => q.fifo)
        = (mixInputs mixer s e l).1.map (fun q => q.fifo)
      ∧ (mixInputs mixer s e (mixInputs mixer s e l).1).2 = (mixInputs mixer s e l).2 := by
  induction l with
  | nil => simp [mixInputs]
  | cons p rest ih =>
    have hp := mixInput_idem mixer s e p (h p (List.mem_cons_self _ _))
    have hrest := ih (fun q hq => h q (List.mem_cons_of_mem _ hq))
    cases hq : mixInput mixer s e p with
    | mk p1 ok =>
      rw [hq] at hp
      cases hq1 : mixInput mixer s e p1 with
      | mk p2 ok2 =>
        rw [hq1] at hp
        obtain ⟨hfifo, hok⟩ := hp
        dsimp only at hfifo hok
        subst hok
        cases ok2 with
        | false =>
          rw [mixInputs_cons_stop mixer s e p p1 rest hq,
            mixInputs_cons_stop mixer s e p1 p2 rest hq1]
          simp [hfifo]
        | true =>
          rw [mixInputs_cons_pass mixer s e p p1 rest hq,
            mixInputs_cons_pass mixer s e p1 p2 _ hq1]
          simp [hfifo, hrest.1, hrest.2]

/-- What a call that returns 0 went through: a start date was found, the loop over the inputs
ran to its end, the allocation succeeded, and the trace is lock, work, unlock, play. -/
theorem MixBuffer_progress (env : aout_env) (p_aout : aout_instance_t)
    (h : (MixBuffer env p_aout).ret = 0) :
    ∃ s addr, cycleStart env p_aout = some s ∧ (reconcile env p_aout s).2 = true
      ∧ (MixBuffer env p_aout).trace =
        [.mutex_lock,
         .do_work (reconcile env p_aout s).1
           (outputBuffer (reconcile env p_aout s).1 s (cycleEnd p_aout s) addr),
         .mutex_unlock,
         .OutputPlay (outputBuffer (reconcile env p_aout s).1 s (cycleEnd p_aout s) addr)] := by
  unfold MixBuffer at h ⊢
  unfold cycleStart
  dsimp only at h ⊢
  split at h
  · cases h
  · rename_i s hs
    rw [hs]
    split at h
    · cases h
    · rename_i p2 hrec
      split at h
      · cases h
      · rename_i addr halloc
        refine ⟨s, addr, rfl, ?_, ?_⟩
        · rw [hrec]
        · simp only [hrec, halloc, cycleEnd_retrieveDate]

/-- A call returns 0, or it returns -1 and its trace is lock, unlock. -/
theorem MixBuffer_ret (env : aout_env) (p_aout : aout_instance_t) :
    (MixBuffer env p_aout).ret = 0
      ∨ ((MixBuffer env p_aout).ret = -1
          ∧ (MixBuffer env p_aout).trace = [.mutex_lock, .mutex_unlock]) := by
  unfold MixBuffer
  dsimp only
  split
  · exact Or.inr ⟨rfl, rfl⟩
  · split
    · exact Or.inr ⟨rfl, rfl⟩
    · split
      · exact Or.inr ⟨rfl, rfl⟩
      · exact Or.inl rfl

theorem reconcile_samples (env : aout_env) (p_aout : aout_instance_t) (s : mtime_t) :
    (reconcile env p_aout s).1.output_i_nb_samples = p_aout.output_i_nb_samples := by
  unfold reconcile
  dsimp only
  exact retrieveDate_samples env p_aout

/-- A call whose loop over the inputs stops early returns -1. -/
theorem MixBuffer_stopped (env : aout_env) (p_aout : aout_instance_t) (s : mtime_t)
    (hs : cycleStart env p_aout = some s) (h : (reconcile env p_aout s).2 = false) :
    (MixBuffer env p_aout).ret = -1 := by
  rcases MixBuffer_ret env p_aout with h0 | ⟨h1, _⟩
  · obtain ⟨s2, _, hs2, hrec, _⟩ := MixBuffer_progress env p_aout h0
    rw [hs] at hs2
    cases hs2
    rw [h] at hrec
    cases hrec
  · exact h1

/-- The three ways in which a call that has a start date goes on. -/
theorem MixBuffer_stop_eq (env : aout_env) (p_aout p2 : aout_instance_t) (s : mtime_t)
    (hs : cycleStart env p_aout = some s) (hrec : reconcile env p_aout s = (p2, false)) :
    MixBuffer env p_aout = { ret := -1, p_aout := p2, trace := [.mutex_lock, .mutex_unlock] } := by
  unfold cycleStart at hs
  unfold MixBuffer
  dsimp only
  rw [hs]
  dsimp only
  rw [hrec]

theorem MixBuffer_alloc_eq (env : aout_env) (p_aout p2 : aout_instance_t) (s : mtime_t)
    (hs : cycleStart env p_aout = some s) (hrec : reconcile env p_aout s = (p2, true))
    (halloc : env.BufferAlloc (allocDuration p2) (firstBuffer p2.pp_inputs) = none) :
    MixBuffer env p_aout = { ret := -1, p_aout := p2, trace := [.mutex_lock, .mutex_unlock] } := by
  unfold cycleStart at hs
  unfold MixBuffer
  dsimp only
  rw [hs]
  dsimp only
  rw [hrec]
  dsimp only
  rw [halloc]

theorem MixBuffer_work_ret (env : aout_env) (p_aout p2 : aout_instance_t) (s : mtime_t)
    (addr : Nat)
    (hs : cycleStart env p_aout = some s) (hrec : reconcile env p_aout s = (p2, true))
    (halloc : env.BufferAlloc (allocDuration p2) (firstBuffer p2.pp_inputs) = some addr) :
    (MixBuffer env p_aout).ret = 0 := by
  unfold cycleStart at hs
  unfold MixBuffer
  dsimp only
  rw [hs]
  dsimp only
  rw [hrec]
  dsimp only
  rw [halloc]

/-- A call that finds no start date returns -1 and only retrieves the date. -/
theorem MixBuffer_of_no_start (env : aout_env) (p_aout : aout_instance_t)
    (hs : cycleStart env p_aout = none) :
    (MixBuffer env p_aout).ret = -1
      ∧ (MixBuffer env p_aout).p_aout = (retrieveDate env p_aout).1 := by
  unfold cycleStart at hs
  unfold MixBuffer
  dsimp only
  rw [hs]
  exact ⟨rfl, rfl⟩

/-- A call whose loop over the inputs stops early, or whose allocation fails, returns -1 and
leaves the instance as the loop left it. -/
theorem MixBuffer_of_failure (env : aout_env) (p_aout : aout_instance_t) (s : mtime_t)
    (hs : cycleStart env p_aout = some s)
    (h : (reconcile env p_aout s).2 = false
      ∨ env.BufferAlloc (allocDuration (reconcile env p_aout s).1)
          (firstBuffer (reconcile env p_aout s).1.pp_inputs) = none) :
    (MixBuffer env p_aout).ret = -1
      ∧ (MixBuffer env p_aout).p_aout = (reconcile env p_aout s).1 := by
  cases hrec : reconcile env p_aout s with
  | mk p2 ok =>
    rw [hrec] at h
    cases ok with
    | false =>
      rw [MixBuffer_stop_eq env p_aout p2 s hs hrec]
      exact ⟨rfl, rfl⟩
    | true =>
      rcases h with h | h
      · cases h
      · rw [MixBuffer_alloc_eq env p_aout p2 s hs hrec h]
        exact ⟨rfl, rfl⟩

/-- What a call that returns -1 went through, and the instance it leaves. -/
theorem MixBuffer_failed (env : aout_env) (p_aout : aout_instance_t)
    (h : (MixBuffer env p_aout).ret = -1) :
    (cycleStart env p_aout = none ∧ (MixBuffer env p_aout).p_aout = (retrieveDate env p_aout).1)
      ∨ ∃ s, cycleStart env p_aout = some s
          ∧ (MixBuffer env p_aout).p_aout = (reconcile env p_aout s).1
          ∧ ((reconcile env p_aout s).2 = false
              ∨ env.BufferAlloc (allocDuration (reconcile env p_aout s).1)
                  (firstBuffer (reconcile env p_aout s).1.pp_inputs) = none) := by
  cases hs : cycleStart env p_aout with
  | none => exact Or.inl ⟨rfl, (MixBuffer_of_no_start env p_aout hs).2⟩
  | some s =>
    refine Or.inr ⟨s, rfl, ?_⟩
    have hwhy : (reconcile env p_aout s).2 = false
        ∨ env.BufferAlloc (allocDuration (reconcile env p_aout s).1)
            (firstBuffer (reconcile env p_aout s).1.pp_inputs) = none := by
      cases hrec : reconcile env p_aout s with
      | mk p2 ok =>
        cases ok with
        | false => exact Or.inl rfl
        | true =>
          right
          cases halloc : env.BufferAlloc (allocDuration p2) (firstBuffer p2.pp_inputs) with
          | none => rfl
          | some addr =>
            have h0 := MixBuffer_work_ret env p_aout p2 s addr hs hrec halloc
            rw [h0] at h
            cases h
    exact ⟨(MixBuffer_of_failure env p_aout s hs hwhy).2, hwhy⟩

theorem reconcile_inputs (env : aout_env) (p_aout : aout_instance_t) (s : mtime_t) :
    (reconcile env p_aout s).1.pp_inputs
      = (mixInputs p_aout.mixer s (cycleEnd p_aout s) p_aout.pp_inputs).1 := by
  unfold reconcile
  dsimp only
  rw [retrieveDate_mixer, retrieveDate_inputs, cycleEnd_retrieveDate]

theorem reconcile_passes (env : aout_env) (p_aout : aout_instance_t) (s : mtime_t) :
    (reconcile env p_aout s).2
      = (mixInputs p_aout.mixer s (cycleEnd p_aout s) p_aout.pp_inputs).2 := by
  unfold reconcile
  dsimp only
  rw [retrieveDate_mixer, retrieveDate_inputs, cycleEnd_retrieveDate]

theorem reconcile_mixer (env : aout_env) (p_aout : aout_instance_t) (s : mtime_t) :
    (reconcile env p_aout s).1.mixer = p_aout.mixer := by
  unfold reconcile
  dsimp only
  exact retrieveDate_mixer env p_aout

theorem reconcile_rate (env : aout_env) (p_aout : aout_instance_t) (s : mtime_t) :
    (reconcile env p_aout s).1.output_i_rate = p_aout.output_i_rate := by
  unfold reconcile
  dsimp only
  exact retrieveDate_rate env p_aout

theorem firstBuffer_fifos (l l2 : List aout_input_t)
    (h : l.map (fun q => q.fifo) = l2.map (fun q => q.fifo)) :
    firstBuffer l = firstBuffer l2 := by
  cases l with
  | nil =>
    cases l2 with
    | nil => rfl
    | cons q2 r2 => simp at h
  | cons q r =>
    cases l2 with
    | nil => simp at h
    | cons q2 r2 =>
      simp only [List.map_cons, List.cons.injEq] at h
      simp only [firstBuffer, h.1]

/-- The second of two calls: when the first call returns -1, the second call chooses the same
start date and no buffer of a fifo ends earlier than a buffer before it, the second call
returns -1 and leaves the buffers of every fifo as the first call left them. -/
theorem MixBuffer_again (env : aout_env) (p_aout : aout_instance_t)
    (hsorted : ∀ q ∈ p_aout.pp_inputs, endsSorted q.fifo)
    (hret : (MixBuffer env p_aout).ret = -1)
    (hstart : cycleStart env (MixBuffer env p_aout).p_aout = cycleStart env p_aout) :
    (MixBuffer env (MixBuffer env p_aout).p_aout).ret = -1
      ∧ fifos (MixBuffer env (MixBuffer env p_aout).p_aout).p_aout
          = fifos (MixBuffer env p_aout).p_aout := by
  rcases MixBuffer_failed env p_aout hret with ⟨hs, hst⟩ | ⟨s, hs, hst, hwhy⟩
  · rw [hs] at hstart
    obtain ⟨h1, h2⟩ := MixBuffer_of_no_start env _ hstart
    refine ⟨h1, ?_⟩
    rw [h2]
    unfold fifos
    rw [retrieveDate_inputs]
  · rw [hs] at hstart
    rw [hst] at hstart ⊢
    have hidem := mixInputs_idem p_aout.mixer s (cycleEnd p_aout s) p_aout.pp_inputs hsorted
    have hc : cycleEnd (reconcile env p_aout s).1 s = cycleEnd p_aout s := by
      unfold cycleEnd
      rw [reconcile_samples, reconcile_rate]
    have hfifos : fifos (reconcile env (reconcile env p_aout s).1 s).1
        = fifos (reconcile env p_aout s).1 := by
      unfold fifos
      rw [reconcile_inputs env (reconcile env p_aout s).1 s, reconcile_mixer, hc,
        reconcile_inputs env p_aout s]
      exact hidem.1
    have hok : (reconcile env (reconcile env p_aout s).1 s).2 = (reconcile env p_aout s).2 := by
      rw [reconcile_passes env (reconcile env p_aout s).1 s, reconcile_mixer, hc,
        reconcile_inputs env p_aout s, reconcile_passes env p_aout s]
      exact hidem.2
    have hwhy2 : (reconcile env (reconcile env p_aout s).1 s).2 = false
        ∨ env.BufferAlloc (allocDuration (reconcile env (reconcile env p_aout s).1 s).1)
            (firstBuffer (reconcile env (reconcile env p_aout s).1 s).1.pp_inputs) = none := by
      rcases hwhy with hw | hw
      · exact Or.inl (hok.trans hw)
      · right
        have hd : allocDuration (reconcile env (reconcile env p_aout s).1 s).1
            = allocDuration (reconcile env p_aout s).1 := by
          unfold allocDuration
          rw [reconcile_samples, reconcile_rate]
        rw [hd, firstBuffer_fifos _ (reconcile env p_aout s).1.pp_inputs hfifos]
        exact hw
    obtain ⟨h1, h2⟩ := MixBuffer_of_failure env _ s hstart hwhy2
    exact ⟨h1, by rw [h2, hfifos]⟩

/-- With the output clock set and not earlier than the current date, a call that returns -1
leaves an instance on which the next call chooses the same start date. -/
theorem cycleStart_again (env : aout_env) (p_aout : aout_instance_t)
    (hset : p_aout.output_fifo_end_date ≠ 0)
    (hnow : ¬ p_aout.output_fifo_end_date < env.mdate)
    (hret : (MixBuffer env p_aout).ret = -1) :
    cycleStart env (MixBuffer env p_aout).p_aout = cycleStart env p_aout := by
  have hkeep : retrieveDate env p_aout = (p_aout, p_aout.output_fifo_end_date) := by
    simp [retrieveDate, aout_FifoNextStart, hset, hnow]
  have hclock : (MixBuffer env p_aout).p_aout.output_fifo_end_date
      = p_aout.output_fifo_end_date := by
    rcases MixBuffer_failed env p_aout hret with ⟨_, hst⟩ | ⟨s, _, hst, _⟩
    · rw [hst, hkeep]
    · rw [hst]
      unfold reconcile
      dsimp only
      rw [hkeep]
  have h1 : cycleStart env p_aout = some p_aout.output_fifo_end_date := by
    simp [cycleStart, retrieveDate, aout_FifoNextStart, findStart, hset, hnow]
  have h2 : cycleStart env (MixBuffer env p_aout).p_aout
      = some (MixBuffer env p_aout).p_aout.output_fifo_end_date := by
    simp [cycleStart, retrieveDate, aout_FifoNextStart, findStart, hclock, hset, hnow]
  rw [h1, h2, hclock]

/-! ### The fifos only lose buffers at the front -/

theorem mixInput_suffix (mixer : audio_sample_format_t) (s e : mtime_t) (p : aout_input_t) :
    (mixInput mixer s e p).1.fifo <:+ p.fifo := by
  rw [mixInput_fifo, dropPast_fifo]
  exact (checkEnough_suffix e _).trans (List.dropWhile_suffix _)

theorem fifosShrunk_refl (l : List aout_input_t) : fifosShrunk l l := by
  induction l with
  | nil => exact List.Forall₂.nil
  | cons q rest ih => exact List.Forall₂.cons (List.suffix_refl _) ih

theorem mixInputs_shrunk (mixer : audio_sample_format_t) (s e : mtime_t)
    (l : List aout_input_t) : fifosShrunk (mixInputs mixer s e l).1 l := by
  induction l with
  | nil => simp [mixInputs, fifosShrunk]
  | cons p rest ih =>
    have hp := mixInput_suffix mixer s e p
    cases hq : mixInput mixer s e p with
    | mk p1 ok =>
      rw [hq] at hp
      cases ok with
      | false =>
        rw [mixInputs_cons_stop mixer s e p p1 rest hq]
        exact List.Forall₂.cons hp (fifosShrunk_refl rest)
      | true =>
        rw [mixInputs_cons_pass mixer s e p p1 rest hq]
        exact List.Forall₂.cons hp ih

theorem reconcile_shrunk (env : aout_env) (p_aout : aout_instance_t) (s : mtime_t) :
    fifosShrunk (reconcile env p_aout s).1.pp_inputs p_aout.pp_inputs := by
  rw [reconcile_inputs]
  exact mixInputs_shrunk _ _ _ _

/-! ### The turns of the loop that checks for enough samples -/

theorem checkContiguous_hole_ne_nil (end_date : mtime_t) (l : List aout_buffer_t) :
    ∀ (prev_date : mtime_t) (p : List aout_buffer_t),
      checkContiguous end_date prev_date l = (p, true) → p ≠ [] := by
  induction l with
  | nil =>
    intro prev_date p h
    simp [checkContiguous] at h
  | cons c rest ih =>
    intro prev_date p h
    unfold checkContiguous at h
    split at h
    · simp only [Prod.mk.injEq] at h
      rw [← h.1]
      simp
    · split at h
      · simp at h
      · exact ih c.end_date p h

theorem checkEnoughTurn_nil (end_date : mtime_t) :
    checkEnoughTurn end_date [] = Sum.inr ([], []) := rfl

theorem checkEnoughTurn_enough (end_date : mtime_t) (b : aout_buffer_t)
    (l : List aout_buffer_t) (hb : b.end_date ≥ end_date) :
    checkEnoughTurn end_date (b :: l) = Sum.inr (b :: l, b :: l) := by
  rw [checkEnoughTurn, if_pos hb]

theorem checkEnoughTurn_hole (end_date : mtime_t) (b : aout_buffer_t)
    (l p : List aout_buffer_t) (hb : ¬ b.end_date ≥ end_date)
    (hwalk : checkContiguous end_date b.end_date l = (p, true)) :
    checkEnoughTurn end_date (b :: l) = Sum.inl p := by
  rw [checkEnoughTurn, if_neg hb, hwalk]

theorem checkEnoughTurn_stop (end_date : mtime_t) (b : aout_buffer_t)
    (l p : List aout_buffer_t) (hb : ¬ b.end_date ≥ end_date)
    (hwalk : checkContiguous end_date b.end_date l = (p, false)) :
    checkEnoughTurn end_date (b :: l) = Sum.inr (b :: l, p) := by
  rw [checkEnoughTurn, if_neg hb, hwalk]

/-- A turn that does not leave the loop removes the head, and possibly more buffers after it,
and leaves a fifo that is not empty. -/
theorem checkEnoughTurn_drops (end_date : mtime_t) (fifo fifo1 : List aout_buffer_t)
    (h : checkEnoughTurn end_date fifo = Sum.inl fifo1) :
    fifo1 ≠ [] ∧ ∃ b l, fifo = b :: l ∧ fifo1 <:+ l := by
  cases fifo with
  | nil => simp [checkEnoughTurn] at h
  | cons b l =>
    by_cases hb : b.end_date ≥ end_date
    · rw [checkEnoughTurn_enough end_date b l hb] at h
      cases h
    · cases hwalk : checkContiguous end_date b.end_date l with
      | mk p drop =>
        cases drop with
        | false =>
          rw [checkEnoughTurn_stop end_date b l p hb hwalk] at h
          cases h
        | true =>
          rw [checkEnoughTurn_hole end_date b l p hb hwalk] at h
          rw [← Sum.inl.inj h]
          refine ⟨checkContiguous_hole_ne_nil end_date l b.end_date p hwalk, b, l, rfl, ?_⟩
          have := checkContiguous_suffix end_date l b.end_date
          rw [hwalk] at this
          exact this

/-- As many turns as the fifo has buffers (and at least one) are enough for the loop to be
left, with the result of `checkEnough`. -/
theorem checkEnoughTurns_enough (end_date : mtime_t) (fifo : List aout_buffer_t) :
    ∀ turns : Nat, fifo.length ≤ turns → 1 ≤ turns →
      checkEnoughTurns end_date turns fifo = some (checkEnough end_date fifo) := by
  induction fifo using checkEnough.induct end_date with
  | case1 =>
    intro turns _ h1
    obtain ⟨m, rfl⟩ : ∃ m, turns = m + 1 := ⟨turns - 1, by omega⟩
    rw [checkEnoughTurns, checkEnoughTurn_nil, checkEnough_nil]
  | case2 b l hb =>
    intro turns _ h1
    obtain ⟨m, rfl⟩ : ∃ m, turns = m + 1 := ⟨turns - 1, by omega⟩
    rw [checkEnoughTurns, checkEnoughTurn_enough end_date b l hb,
      checkEnough_enough end_date b l hb]
  | case3 b l hb p hwalk ih =>
    intro turns hlen h1
    obtain ⟨m, rfl⟩ : ∃ m, turns = m + 1 := ⟨turns - 1, by omega⟩
    have hp : p <:+ l := by
      have := checkContiguous_suffix end_date l b.end_date
      rw [hwalk] at this
      exact this
    have hpne := checkContiguous_hole_ne_nil end_date l b.end_date p hwalk
    have hplen : 1 ≤ p.length := by
      cases p with
      | nil => exact absurd rfl hpne
      | cons c tl => simp
    have hle := hp.length_le
    simp only [List.length_cons] at hlen
    rw [checkEnoughTurns, checkEnoughTurn_hole end_date b l p hb hwalk,
      checkEnough_hole end_date b l p hb hwalk]
    exact ih m (by omega) (by omega)
  | case4 b l hb p hwalk =>
    intro turns _ h1
    obtain ⟨m, rfl⟩ : ∃ m, turns = m + 1 := ⟨turns - 1, by omega⟩
    rw [checkEnoughTurns, checkEnoughTurn_stop end_date b l p hb hwalk,
      checkEnough_stop end_date b l p hb hwalk]

/-! ### The check of `p_first_byte_to_mix` -/

theorem ULONG_SIZE_eq : ULONG_SIZE = 18446744073709551616 := by decide

theorem expectedBytes_eq (mixer : audio_sample_format_t) (s : mtime_t) (b : aout_buffer_t) :
    expectedBytes mixer s b = to_ulong (expectedOffset mixer s b) := rfl

theorem expectedOffset_nonneg (mixer : audio_sample_format_t) (s : mtime_t)
    (b : aout_buffer_t) (hbpf : 0 < mixer.i_bytes_per_frame) (hrate : 0 ≤ mixer.i_rate)
    (hfl : 0 < mixer.i_frame_length) (hhead : b.start_date ≤ s) :
    0 ≤ expectedOffset mixer s b := by
  unfold expectedOffset
  apply Int.tdiv_nonneg _ (by decide)
  apply Int.tdiv_nonneg _ (le_of_lt hfl)
  exact mul_nonneg (mul_nonneg (sub_nonneg.mpr hhead) (le_of_lt hbpf)) hrate

/-- The check on a pointer that is set and more than `bn` bytes away from the expected
position `e`: the pointer is moved to the multiple of `bn` at or below `e`. -/
theorem alignFirstByte_far (mixer : audio_sample_format_t) (s : mtime_t) (b : aout_buffer_t)
    (first e bn : Nat)
    (he : expectedBytes mixer s b = e) (hbn : to_ulong mixer.i_bytes_per_frame = bn)
    (hbpos : 0 < bn) (hfits : b.p_buffer + e + bn < ULONG_SIZE) (hfirst : first < ULONG_SIZE)
    (hset : first ≠ NULL)
    (hdev : (first : Int) - (b.p_buffer : Int) > (e : Int) + (bn : Int)
      ∨ (first : Int) - (b.p_buffer : Int) < (e : Int) - (bn : Int)) :
    alignFirstByte mixer s b first = b.p_buffer + e / bn * bn := by
  have hq1 := Nat.div_mul_le_self e bn
  have hq2 := Nat.lt_div_mul_add (a := e) hbpos
  rw [ULONG_SIZE_eq] at hfits hfirst
  unfold alignFirstByte
  simp only [he, hbn, if_neg hset]
  rw [if_pos]
  · rw [ULONG_SIZE_eq]
    omega
  · unfold to_ulong
    rw [ULONG_SIZE_eq]
    omega

/-- The check on a pointer that is `NULL`: the pointer is set to the start of the payload and
moved to the multiple of `bn` at or below the expected position `e`, unless `e` is `bn`. -/
theorem alignFirstByte_null (mixer : audio_sample_format_t) (s : mtime_t) (b : aout_buffer_t)
    (e bn : Nat)
    (he : expectedBytes mixer s b = e) (hbn : to_ulong mixer.i_bytes_per_frame = bn)
    (hbpos : 0 < bn) (hfits : b.p_buffer + e + bn < ULONG_SIZE) :
    alignFirstByte mixer s b NULL
      = if e = bn then b.p_buffer else b.p_buffer + e / bn * bn := by
  have hq1 := Nat.div_mul_le_self e bn
  have hq2 := Nat.lt_div_mul_add (a := e) hbpos
  rw [ULONG_SIZE_eq] at hfits
  unfold alignFirstByte
  simp only [he, hbn, if_true, sub_self]
  have h0 : to_ulong 0 = 0 := by decide
  rw [h0, ULONG_SIZE_eq]
  by_cases heq : e = bn
  · rw [if_pos heq, if_neg]
    omega
  · rw [if_neg heq, if_pos]
    · omega
    · omega

/-- The bridge between the signed quantities of the statements and the `unsigned long` values
of the code, when nothing wraps. -/
theorem unsigned_values (mixer : audio_sample_format_t) (s : mtime_t) (b : aout_buffer_t)
    (hbpf : 0 < mixer.i_bytes_per_frame) (hrate : 0 ≤ mixer.i_rate)
    (hfl : 0 < mixer.i_frame_length) (hhead : b.start_date ≤ s)
    (hfits : (b.p_buffer : Int) + expectedOffset mixer s b + mixer.i_bytes_per_frame
      < (ULONG_SIZE : Int)) :
    ∃ e bn : Nat, expectedOffset mixer s b = (e : Int) ∧ mixer.i_bytes_per_frame = (bn : Int)
      ∧ expectedBytes mixer s b = e ∧ to_ulong mixer.i_bytes_per_frame = bn
      ∧ 0 < bn ∧ b.p_buffer + e + bn < ULONG_SIZE := by
  have hE := expectedOffset_nonneg mixer s b hbpf hrate hfl hhead
  obtain ⟨e, he⟩ := Int.eq_ofNat_of_zero_le hE
  obtain ⟨bn, hbn⟩ := Int.eq_ofNat_of_zero_le (le_of_lt hbpf)
  rw [he, hbn] at hfits
  rw [hbn] at hbpf
  rw [ULONG_SIZE_eq] at hfits ⊢
  refine ⟨e, bn, he, hbn, ?_, ?_, by omega, by omega⟩
  · rw [expectedBytes_eq, he]
    unfold to_ulong
    rw [ULONG_SIZE_eq]
    omega
  · rw [hbn]
    unfold to_ulong
    rw [ULONG_SIZE_eq]
    omega

theorem snapped_offset (e bn : Nat) :
    (((e / bn * bn : Nat) : Int)) = Int.tdiv (e : Int) (bn : Int) * (bn : Int) := by
  rw [Int.tdiv_eq_ediv (Int.ofNat_nonneg e) (Int.ofNat_nonneg bn)]
  push_cast
  rfl

theorem pcmBuffer_start_date (s : mtime_t) (addr : Nat) : (pcmBuffer s addr).start_date = s :=
  rfl

theorem pcmBuffer_end_date (s : mtime_t) (addr : Nat) :
    (pcmBuffer s addr).end_date = s + 62500 := rfl

theorem linearFormat_non_linear : linearFormat.non_linear = false := rfl

/-- For a linear format, the pointer that the body of the loop over the inputs leaves is the
one that the check of lines 152-180 computes, from the head buffer and the pointer that the
removal of the past leaves. -/
theorem mixInput_first_byte (mixer : audio_sample_format_t) (s e : mtime_t) (p : aout_input_t)
    (b : aout_buffer_t) (l : List aout_buffer_t) (first : Nat)
    (hlin : mixer.non_linear = false)
    (hdrop : dropPast s p.fifo p.p_first_byte_to_mix = (b :: l, first)) :
    (mixInput mixer s e p).1.p_first_byte_to_mix = alignFirstByte mixer s b first := by
  unfold mixInput
  split
  · rename_i hf
    rw [hf] at hdrop
    simp [dropPast] at hdrop
  · rw [hdrop]
    simp only [hlin]
    split <;> simp

/-- When a turn of the loop that checks for enough samples leaves the loop, what it leaves is
the result of the whole loop. -/
theorem checkEnough_of_turn_exit (end_date : mtime_t) (fifo : List aout_buffer_t)
    (r : List aout_buffer_t × List aout_buffer_t)
    (h : checkEnoughTurn end_date fifo = Sum.inr r) : checkEnough end_date fifo = r := by
  cases fifo with
  | nil =>
    rw [checkEnoughTurn_nil] at h
    rw [checkEnough_nil]
    exact Sum.inr.inj h
  | cons b l =>
    by_cases hb : b.end_date ≥ end_date
    · rw [checkEnoughTurn_enough end_date b l hb] at h
      rw [checkEnough_enough end_date b l hb]
      exact Sum.inr.inj h
    · cases hwalk : checkContiguous end_date b.end_date l with
      | mk p drop =>
        cases drop with
        | false =>
          rw [checkEnoughTurn_stop end_date b l p hb hwalk] at h
          rw [checkEnough_stop end_date b l p hb hwalk]
          exact Sum.inr.inj h
        | true =>
          rw [checkEnoughTurn_hole end_date b l p hb hwalk] at h
          cases h

/-! ## The start date of the cycle -/

/-- C1 (as stated) fails: with an unset clock and the head start dates 0 and -3 the loop
chooses -3, which is not the maximum, since a running value of 0 counts as unset; and with
no input at all it chooses 0, the maximum of nothing. -/
theorem C1_counterexample :
    ((instanceOf 20 [[bufferAt 0 10], [bufferAt (-3) 10]]).output_fifo_end_date = 0
      ∧ (∀ p ∈ (instanceOf 20 [[bufferAt 0 10], [bufferAt (-3) 10]]).pp_inputs, p.fifo ≠ [])
      ∧ cycleStart idleEnv (instanceOf 20 [[bufferAt 0 10], [bufferAt (-3) 10]]) = some (-3)
      ∧ ¬ isMaximum (headStarts (instanceOf 20 [[bufferAt 0 10], [bufferAt (-3) 10]]).pp_inputs)
          (-3))
    ∧ ((instanceOf 20 []).output_fifo_end_date = 0
      ∧ (∀ p ∈ (instanceOf 20 []).pp_inputs, p.fifo ≠ [])
      ∧ cycleStart idleEnv (instanceOf 20 []) = some 0
      ∧ ¬ isMaximum (headStarts (instanceOf 20 []).pp_inputs) 0) := by
  decide

/-- C1 (amended): when the output clock is unset, there is at least one input, every fifo is
non-empty and no head buffer has a negative start date, the start date that `MixBuffer`
chooses for the cycle is the maximum of the start dates of the head buffers. -/
theorem C1_start_is_latest_head (env : aout_env) (p_aout : aout_instance_t)
    (hclock : p_aout.output_fifo_end_date = 0)
    (hne : p_aout.pp_inputs ≠ [])
    (hfull : ∀ p ∈ p_aout.pp_inputs, p.fifo ≠ [])
    (hpos : ∀ x ∈ headStarts p_aout.pp_inputs, 0 ≤ x) :
    ∃ s, cycleStart env p_aout = some s ∧ isMaximum (headStarts p_aout.pp_inputs) s := by
  have hdate : (retrieveDate env p_aout).2 = 0 := by
    simp [retrieveDate, aout_FifoNextStart, hclock]
  have hloop := latestStart_foldl p_aout.pp_inputs 0 (le_refl _) hfull hpos
  refine ⟨List.foldl max 0 (headStarts p_aout.pp_inputs), ?_, ?_⟩
  · unfold cycleStart findStart
    rw [hdate, if_pos rfl, hloop]
  · have hge := foldl_max_ge (headStarts p_aout.pp_inputs) 0
    refine ⟨?_, hge.2⟩
    rcases foldl_max_mem (headStarts p_aout.pp_inputs) 0 with h0 | hmem
    · rw [h0]
      cases hl : headStarts p_aout.pp_inputs with
      | nil => exact absurd hl (headStarts_ne_nil _ hne hfull)
      | cons y tl =>
        have hy0 : 0 ≤ y := hpos y (by rw [hl]; exact List.mem_cons_self _ _)
        have hy1 : y ≤ 0 := by
          have := hge.2 y (by rw [hl]; exact List.mem_cons_self _ _)
          rw [h0] at this
          exact this
        have hy : y = 0 := le_antisymm hy1 hy0
        rw [hy]
        exact List.mem_cons_self _ _
    · exact hmem

/-- Witness of C1 (amended): two inputs whose head buffers start at 5 and at 20. -/
theorem C1_start_is_latest_head_witness :
    ∃ s, cycleStart idleEnv (instanceOf 20 [[bufferAt 5 30], [bufferAt 20 60]]) = some s
      ∧ isMaximum (headStarts (instanceOf 20 [[bufferAt 5 30], [bufferAt 20 60]]).pp_inputs) s :=
  C1_start_is_latest_head idleEnv (instanceOf 20 [[bufferAt 5 30], [bufferAt 20 60]])
    (by decide) (by decide) (by decide) (by decide)

/-- C2: when at least one input fifo is empty, whatever the output clock and the current date,
`MixBuffer` returns -1, does not enter the work routine of the mixer and forwards no block to
the output. -/
theorem C2_empty_fifo_no_progress (env : aout_env) (p_aout : aout_instance_t)
    (h : ∃ p ∈ p_aout.pp_inputs, p.fifo = []) :
    (MixBuffer env p_aout).ret = -1
      ∧ worked (MixBuffer env p_aout).trace = []
      ∧ played (MixBuffer env p_aout).trace = [] := by
  have hloop : ∀ s, (reconcile env p_aout s).2 = false := by
    intro s
    unfold reconcile
    dsimp only
    apply mixInputs_empty
    rw [retrieveDate_inputs]
    exact h
  unfold MixBuffer
  dsimp only
  split
  · exact ⟨rfl, rfl, rfl⟩
  · rename_i s _
    split
    · exact ⟨rfl, rfl, rfl⟩
    · rename_i p2 hrec
      have := hloop s
      rw [hrec] at this
      cases this

/-- Witness of C2: the second of two inputs has an empty fifo. -/
theorem C2_empty_fifo_no_progress_witness :
    (MixBuffer idleEnv (instanceOf 20 [[bufferAt 0 30], []])).ret = -1
      ∧ worked (MixBuffer idleEnv (instanceOf 20 [[bufferAt 0 30], []])).trace = []
      ∧ played (MixBuffer idleEnv (instanceOf 20 [[bufferAt 0 30], []])).trace = [] :=
  C2_empty_fifo_no_progress idleEnv (instanceOf 20 [[bufferAt 0 30], []])
    ⟨⟨[], NULL⟩, by decide, rfl⟩

/-! ## The block that is emitted -/

/-- C3: whenever `MixBuffer` returns 0 (the output rate being positive), it forwards exactly one
block to the output; the block starts at the start date of the cycle and its `end_date` minus
its `start_date` is `i_nb_samples * 1000000 / i_rate`, the division truncating. -/
theorem C3_block_dates (env : aout_env) (p_aout : aout_instance_t)
    (_hrate : 0 < p_aout.output_i_rate)
    (h : (MixBuffer env p_aout).ret = 0) :
    ∃ s b, cycleStart env p_aout = some s
      ∧ played (MixBuffer env p_aout).trace = [b]
      ∧ b.start_date = s
      ∧ b.end_date - b.start_date
          = Int.tdiv (p_aout.output_i_nb_samples * 1000000) p_aout.output_i_rate := by
  obtain ⟨s, addr, hs, _, htrace⟩ := MixBuffer_progress env p_aout h
  refine ⟨s, outputBuffer (reconcile env p_aout s).1 s (cycleEnd p_aout s) addr, hs, ?_, rfl, ?_⟩
  · rw [htrace]
    rfl
  · simp only [outputBuffer, cycleEnd]
    exact add_sub_cancel_left _ _

/-- Witness of C3: two inputs that each hold one buffer covering `[0, 25)`, blocks of 25
microseconds: exactly one block is forwarded, tagged `[0, 25)`. -/
theorem C3_block_dates_witness :
    (played (MixBuffer idleEnv (instanceOf 25 [[bufferAt 0 25], [bufferAt 0 25]])).trace).map
        (fun b => (b.start_date, b.end_date)) = [(0, 25)]
    ∧ ∃ s b, cycleStart idleEnv (instanceOf 25 [[bufferAt 0 25], [bufferAt 0 25]]) = some s
      ∧ played (MixBuffer idleEnv (instanceOf 25 [[bufferAt 0 25], [bufferAt 0 25]])).trace = [b]
      ∧ b.start_date = s
      ∧ b.end_date - b.start_date = Int.tdiv ((25 : Int) * 1000000) 1000000 := by
  have hret : (MixBuffer idleEnv (instanceOf 25 [[bufferAt 0 25], [bufferAt 0 25]])).ret = 0 := by
    simp [MixBuffer, reconcile, retrieveDate, aout_FifoNextStart, findStart, latestStart,
      cycleEnd, mixInputs, mixInput, dropPast, checkEnough, instanceOf, bufferAt, idleEnv,
      Int.tdiv]
  refine ⟨?_, C3_block_dates idleEnv (instanceOf 25 [[bufferAt 0 25], [bufferAt 0 25]])
    (by decide) hret⟩
  simp [MixBuffer, reconcile, retrieveDate, aout_FifoNextStart, findStart, latestStart,
    cycleEnd, mixInputs, mixInput, dropPast, checkEnough, instanceOf, bufferAt, idleEnv,
    Int.tdiv, played, outputBuffer]

/-- C4: when the output clock is set (non-zero) and not earlier than the current date, the
start date of the cycle is the value of the clock, whatever the fifos hold, and a block
forwarded to the output in that cycle starts at that value. -/
theorem C4_start_is_clock (env : aout_env) (p_aout : aout_instance_t)
    (hset : p_aout.output_fifo_end_date ≠ 0)
    (hnow : ¬ p_aout.output_fifo_end_date < env.mdate) :
    cycleStart env p_aout = some p_aout.output_fifo_end_date
      ∧ ∀ b ∈ played (MixBuffer env p_aout).trace,
          b.start_date = p_aout.output_fifo_end_date := by
  have hs : cycleStart env p_aout = some p_aout.output_fifo_end_date := by
    simp [cycleStart, retrieveDate, aout_FifoNextStart, findStart, hset, hnow]
  refine ⟨hs, ?_⟩
  intro b hb
  by_cases hret : (MixBuffer env p_aout).ret = 0
  · obtain ⟨s, addr, hs2, _, htrace⟩ := MixBuffer_progress env p_aout hret
    rw [hs] at hs2
    cases hs2
    rw [htrace] at hb
    simp only [played, List.mem_singleton] at hb
    rw [hb]
    rfl
  · rcases MixBuffer_ret env p_aout with h0 | ⟨_, htrace⟩
    · exact absurd h0 hret
    · rw [htrace] at hb
      simp [played] at hb

/-- Witness of C4: the clock is at 100, the current date is 0, the head buffer starts
at 90. -/
theorem C4_start_is_clock_witness :
    cycleStart idleEnv { instanceOf 20 [[bufferAt 90 130]] with output_fifo_end_date := 100 }
        = some 100
      ∧ ∀ b ∈ played (MixBuffer idleEnv
            { instanceOf 20 [[bufferAt 90 130]] with output_fifo_end_date := 100 }).trace,
          b.start_date = 100 :=
  C4_start_is_clock idleEnv { instanceOf 20 [[bufferAt 90 130]] with output_fifo_end_date := 100 }
    (by decide) (by decide)

/-- C5: when the output clock is non-zero and earlier than the current date, `MixBuffer` clears
it and goes on exactly as it does on the same instance with the clock already unset: the two
calls return the same value, leave the same instance (fifos and `p_first_byte_to_mix`
included), produce the same trace (so the same dates on a forwarded block), and choose the
same start date, which comes from the heads of the fifos. -/
theorem C5_late_clock_is_unset (env : aout_env) (p_aout : aout_instance_t)
    (hset : p_aout.output_fifo_end_date ≠ 0)
    (hlate : p_aout.output_fifo_end_date < env.mdate) :
    (retrieveDate env p_aout).1.output_fifo_end_date = 0
      ∧ MixBuffer env p_aout = MixBuffer env { p_aout with output_fifo_end_date := 0 }
      ∧ cycleStart env p_aout = cycleStart env { p_aout with output_fifo_end_date := 0 }
      ∧ cycleStart env p_aout = findStart 0 p_aout.pp_inputs := by
  have h1 : retrieveDate env p_aout = ({ p_aout with output_fifo_end_date := 0 }, 0) := by
    simp [retrieveDate, aout_FifoNextStart, hset, hlate]
  have h2 : retrieveDate env { p_aout with output_fifo_end_date := 0 }
      = ({ p_aout with output_fifo_end_date := 0 }, 0) := by
    simp [retrieveDate, aout_FifoNextStart]
  refine ⟨by rw [h1], ?_, ?_, ?_⟩
  · unfold MixBuffer reconcile
    rw [h1, h2]
  · unfold cycleStart
    rw [h1, h2]
  · unfold cycleStart
    rw [h1]

/-- Witness of C5: the clock is at 5 and the current date is 1000. -/
theorem C5_late_clock_is_unset_witness :
    (retrieveDate { idleEnv with mdate := 1000 }
        { instanceOf 20 [[bufferAt 90 130]] with output_fifo_end_date := 5 }).1.output_fifo_end_date
        = 0
      ∧ MixBuffer { idleEnv with mdate := 1000 }
          { instanceOf 20 [[bufferAt 90 130]] with output_fifo_end_date := 5 }
        = MixBuffer { idleEnv with mdate := 1000 }
          { { instanceOf 20 [[bufferAt 90 130]] with output_fifo_end_date := 5 } with
            output_fifo_end_date := 0 }
      ∧ cycleStart { idleEnv with mdate := 1000 }
          { instanceOf 20 [[bufferAt 90 130]] with output_fifo_end_date := 5 }
        = cycleStart { idleEnv with mdate := 1000 }
          { { instanceOf 20 [[bufferAt 90 130]] with output_fifo_end_date := 5 } with
            output_fifo_end_date := 0 }
      ∧ cycleStart { idleEnv with mdate := 1000 }
          { instanceOf 20 [[bufferAt 90 130]] with output_fifo_end_date := 5 }
        = findStart 0
          ({ instanceOf 20 [[bufferAt 90 130]] with output_fifo_end_date := 5 }).pp_inputs :=
  C5_late_clock_is_unset { idleEnv with mdate := 1000 }
    { instanceOf 20 [[bufferAt 90 130]] with output_fifo_end_date := 5 } (by decide) (by decide)

/-! ## The state of the fifos when the mixer works -/

/-- C6: whenever `MixBuffer` returns 0, the work routine of the mixer is entered once, and on
the instance it is entered with every input fifo is non-empty and holds a position `k` whose
buffer ends at the end date of the cycle or later, every buffer from 1 to `k` starting at the
date where the buffer before it ends. -/
theorem C6_enough_contiguous_samples (env : aout_env) (p_aout : aout_instance_t)
    (h : (MixBuffer env p_aout).ret = 0) :
    ∃ s st, cycleStart env p_aout = some s
      ∧ worked (MixBuffer env p_aout).trace = [st]
      ∧ ∀ q ∈ st.pp_inputs, q.fifo ≠ [] ∧ reachesEnd (cycleEnd p_aout s) q.fifo := by
  obtain ⟨s, addr, hs, hrec, htrace⟩ := MixBuffer_progress env p_aout h
  refine ⟨s, (reconcile env p_aout s).1, hs, ?_, ?_⟩
  · rw [htrace]
    rfl
  · intro q hq
    unfold reconcile at hrec hq
    dsimp only at hrec hq
    have hr := mixInputs_reachesEnd _ _ _ _ hrec q hq
    rw [cycleEnd_retrieveDate] at hr
    exact ⟨reachesEnd_ne_nil _ _ hr, hr⟩

/-- Witness of C6: two inputs, the first with two contiguous buffers, blocks of 25
microseconds. -/
theorem C6_enough_contiguous_samples_witness :
    ∃ s st, cycleStart idleEnv (instanceOf 25 [[bufferAt 0 10, bufferAt 10 30], [bufferAt 0 25]])
        = some s
      ∧ worked (MixBuffer idleEnv
          (instanceOf 25 [[bufferAt 0 10, bufferAt 10 30], [bufferAt 0 25]])).trace = [st]
      ∧ ∀ q ∈ st.pp_inputs, q.fifo ≠ []
          ∧ reachesEnd
              (cycleEnd (instanceOf 25 [[bufferAt 0 10, bufferAt 10 30], [bufferAt 0 25]]) s)
              q.fifo :=
  C6_enough_contiguous_samples idleEnv
    (instanceOf 25 [[bufferAt 0 10, bufferAt 10 30], [bufferAt 0 25]])
    (by
      simp [MixBuffer, reconcile, retrieveDate, aout_FifoNextStart, findStart, latestStart,
        cycleEnd, mixInputs, mixInput, dropPast, checkEnough, checkContiguous, instanceOf,
        bufferAt, idleEnv, Int.tdiv])

/-- C7 (the code at the failing input): on `gapInstance` the cycle is `[20, 50)`.  In the first
fifo the buffer (0,10) is freed as a buffer of the past and (50,100) becomes the head; it ends
after 50, so the fifo passes: `MixBuffer` returns 0 and the mixer works on a first fifo whose
head starts at 50, later than the start date 20 of the cycle. -/
theorem C7_head_after_start :
    cycleStart idleEnv gapInstance = some 20
      ∧ cycleEnd gapInstance 20 = 50
      ∧ (MixBuffer idleEnv gapInstance).ret = 0
      ∧ (worked (MixBuffer idleEnv gapInstance).trace).map fifoDates
          = [[[(50, 100)], [(20, 100)]]] := by
  refine ⟨by decide, by decide, ?_, ?_⟩ <;>
    simp [MixBuffer, reconcile, retrieveDate, aout_FifoNextStart, findStart, latestStart,
      cycleEnd, mixInputs, mixInput, dropPast, checkEnough, checkContiguous, gapInstance,
      instanceOf, idleEnv, Int.tdiv, linearFormat, fifoDates, worked, bufferAt_start_date,
      bufferAt_end_date]

/-! ## The removal of stale buffers -/

/-- C8: for an input that the loop over the inputs reaches (the inputs before it all pass),
the removal of the past frees exactly the longest run of head buffers that end before the start
date of the cycle (a buffer that ends at the start date stays), and clears
`p_first_byte_to_mix` when it freed something (and only then changes it); the fifo is then the
original one without that run, and it is either empty, in which case `MixBuffer` returns -1,
or its head ends at the start date or later; the check for enough samples runs on that
fifo. -/
theorem C8_stale_drop (env : aout_env) (p_aout : aout_instance_t) (s : mtime_t)
    (pre post : List aout_input_t) (p : aout_input_t)
    (hs : cycleStart env p_aout = some s)
    (hsplit : p_aout.pp_inputs = pre ++ p :: post)
    (hreach : (mixInputs p_aout.mixer s (cycleEnd p_aout s) pre).2 = true) :
    p.fifo = p.fifo.takeWhile (fun b => decide (b.end_date < s))
        ++ (dropPast s p.fifo p.p_first_byte_to_mix).1
      ∧ (∀ b ∈ p.fifo.takeWhile (fun b => decide (b.end_date < s)), b.end_date < s)
      ∧ (∀ b, (dropPast s p.fifo p.p_first_byte_to_mix).1.head? = some b → b.end_date ≥ s)
      ∧ (p.fifo.takeWhile (fun b => decide (b.end_date < s)) ≠ [] →
          (dropPast s p.fifo p.p_first_byte_to_mix).2 = NULL)
      ∧ (p.fifo.takeWhile (fun b => decide (b.end_date < s)) = [] →
          (dropPast s p.fifo p.p_first_byte_to_mix).2 = p.p_first_byte_to_mix)
      ∧ ((dropPast s p.fifo p.p_first_byte_to_mix).1 = [] → (MixBuffer env p_aout).ret = -1)
      ∧ (mixInput p_aout.mixer s (cycleEnd p_aout s) p).1.fifo
          = (checkEnough (cycleEnd p_aout s) (dropPast s p.fifo p.p_first_byte_to_mix).1).1 := by
  refine ⟨?_, ?_, ?_, ?_, ?_, ?_, mixInput_fifo _ _ _ _⟩
  · rw [dropPast_fifo]
    exact (List.takeWhile_append_dropWhile _ _).symm
  · intro b hb
    have := List.mem_takeWhile_imp hb
    simpa using this
  · intro b hb
    rw [dropPast_fifo] at hb
    have := List.head?_dropWhile_not (fun b => decide (b.end_date < s)) p.fifo
    rw [hb] at this
    simpa using this
  · intro hne
    rw [dropPast_first_byte, if_neg hne]
  · intro hnil
    rw [dropPast_first_byte, if_pos hnil]
  · intro hnil
    apply MixBuffer_stopped env p_aout s hs
    unfold reconcile
    dsimp only
    rw [retrieveDate_inputs, retrieveDate_mixer, cycleEnd_retrieveDate, hsplit,
      mixInputs_stop _ _ _ pre post p hreach (mixInput_dropPast_nil _ _ _ _ hnil)]

/-- Witness of C8: the second input of `staleInstance`; the cycle starts at 20, the buffer
(0,10) is freed, the buffer (10,20), which ends at the start date, stays as the head, and
`p_first_byte_to_mix` is cleared. -/
theorem C8_stale_drop_witness :
    cycleStart idleEnv staleInstance = some 20
      ∧ (dropPast 20 [bufferAt 0 10, bufferAt 10 20, bufferAt 20 50] 5000).1
          = [bufferAt 10 20, bufferAt 20 50]
      ∧ (∀ b, (dropPast 20 [bufferAt 0 10, bufferAt 10 20, bufferAt 20 50] 5000).1.head? = some b →
          b.end_date ≥ 20)
      ∧ (dropPast 20 [bufferAt 0 10, bufferAt 10 20, bufferAt 20 50] 5000).2 = NULL :=
  have h := C8_stale_drop idleEnv
    { staleInstance with pp_inputs :=
        [⟨[bufferAt 20 60], NULL⟩, ⟨[bufferAt 0 10, bufferAt 10 20, bufferAt 20 50], 5000⟩] }
    20 [⟨[bufferAt 20 60], NULL⟩] [] ⟨[bufferAt 0 10, bufferAt 10 20, bufferAt 20 50], 5000⟩
    (by decide) rfl
    (by
      simp [mixInputs, mixInput, dropPast, checkEnough, staleInstance, instanceOf, bufferAt,
        cycleEnd, Int.tdiv])
  ⟨by decide, by decide, h.2.2.1, h.2.2.2.1 (by decide)⟩

/-! ## Buffer holes -/

/-- C9: for a fifo whose head ends before the end date of the cycle, when position `j + 1` is
the first one whose buffer does not start at the date where the buffer before it ends, and
every buffer before it ends before the end date of the cycle, the walk stops at that buffer
with `b_drop_buffers` set, and the turn of the loop frees exactly the buffers 0 to `j`: the
fifo it leaves is the original one from position `j + 1` on, the buffer at `j + 1` being the
head and the later buffers following it in order.  The check for enough samples goes on from
that new head: the whole loop gives what it gives on that fifo, which is what the next turn
leaves whenever the next turn leaves the loop (the fifo from `j + 1` on, untouched, when its
head ends at the end date or later), and in every case a suffix of that fifo. -/
theorem C9_hole_drop (end_date : mtime_t) (b : aout_buffer_t) (l : List aout_buffer_t)
    (j : Nat)
    (hhead : b.end_date < end_date)
    (hchain : contiguousUpTo (b :: l) j)
    (hhole : ∃ a c, (b :: l)[j]? = some a ∧ (b :: l)[j + 1]? = some c
      ∧ c.start_date ≠ a.end_date)
    (hshort : ∀ i d, 1 ≤ i → i ≤ j → (b :: l)[i]? = some d → d.end_date < end_date) :
    checkContiguous end_date b.end_date l = ((b :: l).drop (j + 1), true)
      ∧ checkEnough end_date (b :: l) = checkEnough end_date ((b :: l).drop (j + 1))
      ∧ ((b :: l).drop (j + 1)).head? = (b :: l)[j + 1]?
      ∧ checkEnoughTurn end_date (b :: l) = Sum.inl ((b :: l).drop (j + 1))
      ∧ (∀ r, checkEnoughTurn end_date ((b :: l).drop (j + 1)) = Sum.inr r →
          checkEnough end_date (b :: l) = r)
      ∧ (∀ c, (b :: l)[j + 1]? = some c → c.end_date ≥ end_date →
          checkEnough end_date (b :: l) = ((b :: l).drop (j + 1), (b :: l).drop (j + 1)))
      ∧ (checkEnough end_date (b :: l)).1 <:+ (b :: l).drop (j + 1) := by
  have hwalk := checkContiguous_hole end_date l b.end_date j
    (holeAt_of_index end_date j b l hchain hhole hshort)
  have hgo : checkEnough end_date (b :: l) = checkEnough end_date ((b :: l).drop (j + 1)) := by
    rw [checkEnough_hole end_date b l (l.drop j) (not_le.mpr hhead) hwalk]
    rfl
  refine ⟨by simpa using hwalk, hgo, ?_, ?_, ?_, ?_, ?_⟩
  · rw [List.head?_drop]
  · rw [checkEnoughTurn_hole end_date b l (l.drop j) (not_le.mpr hhead) hwalk]
    rfl
  · intro r hr
    rw [hgo]
    exact checkEnough_of_turn_exit end_date _ r hr
  · intro c hc hend
    rw [hgo]
    have hdrop : (b :: l).drop (j + 1) = c :: (b :: l).drop (j + 2) := by
      have hlt : j + 1 < (b :: l).length := by
        by_contra hge
        rw [List.getElem?_eq_none (Nat.le_of_not_lt hge)] at hc
        cases hc
      rw [List.drop_eq_getElem_cons hlt]
      have hget := List.getElem?_eq_getElem hlt
      rw [hc] at hget
      rw [← Option.some.inj hget]
    rw [hdrop]
    exact checkEnough_enough end_date c _ hend
  · rw [hgo]
    exact checkEnough_suffix end_date _

/-- Witness of C9: the fifo A(0,10), B(15,25) and the window `[0, 25)`: A is freed and B stays
as the head; a whole call of `MixBuffer` on that fifo leaves B alone in it.  And the fifo
A(0,10), B(15,20), C(20,30) with the end date 30: A alone is freed, B and C stay in order. -/
theorem C9_hole_drop_witness :
    (checkEnough 25 [bufferAt 0 10, bufferAt 15 25]).1 = [bufferAt 15 25]
      ∧ (MixBuffer idleEnv (instanceOf 25 [[bufferAt 0 10, bufferAt 15 25]])).p_aout.pp_inputs.map
          (fun q => q.fifo) = [[bufferAt 15 25]]
      ∧ checkEnoughTurn 25 [bufferAt 0 10, bufferAt 15 25] = Sum.inl [bufferAt 15 25]
      ∧ checkEnough 25 [bufferAt 0 10, bufferAt 15 25] = ([bufferAt 15 25], [bufferAt 15 25])
      ∧ checkEnoughTurn 30 [bufferAt 0 10, bufferAt 15 20, bufferAt 20 30]
        = Sum.inl [bufferAt 15 20, bufferAt 20 30]
      ∧ checkEnough 30 [bufferAt 0 10, bufferAt 15 20, bufferAt 20 30]
        = ([bufferAt 15 20, bufferAt 20 30], [bufferAt 20 30]) := by
  have h := C9_hole_drop 25 (bufferAt 0 10) [bufferAt 15 25] 0 (by decide)
    (by intro i h1 hi; omega)
    ⟨bufferAt 0 10, bufferAt 15 25, rfl, rfl, by decide⟩
    (by intro i d h1 hi; omega)
  have h3 := C9_hole_drop 30 (bufferAt 0 10) [bufferAt 15 20, bufferAt 20 30] 0 (by decide)
    (by intro i h1 hi; omega)
    ⟨bufferAt 0 10, bufferAt 15 20, rfl, rfl, by decide⟩
    (by intro i d h1 hi; omega)
  have hB := h.2.2.2.2.2.1 (bufferAt 15 25) rfl (by decide)
  refine ⟨?_, ?_, h.2.2.2.1, hB, h3.2.2.2.1, h3.2.2.2.2.1 _ (by decide)⟩
  · rw [hB]
    rfl
  · simp [MixBuffer, reconcile, retrieveDate, aout_FifoNextStart, findStart, latestStart,
      cycleEnd, mixInputs, mixInput, dropPast, checkEnough, checkContiguous, instanceOf,
      bufferAt, idleEnv, Int.tdiv]

/-! ## Calling again after a call without progress -/

/-- C10 (as stated) fails.  On `driftInstance` (clock unset) the first call starts at 20, frees
(0,10) in the second fifo and returns -1; the second call then starts at 35 and frees (20,30) in
the first fifo.  On `overlapInstance` (clock at 50) the first call frees (0,100) at the hole and
returns -1; the second call frees (10,20), now a buffer of the past.  On `backwardInstance` the
first call frees (100,110) and returns -1; the second call starts at 0 and returns 0. -/
theorem C10_counterexample :
    ((MixBuffer idleEnv driftInstance).ret = -1
      ∧ fifoDates (MixBuffer idleEnv driftInstance).p_aout = [[(20, 30), (30, 60)], [(35, 38)]]
      ∧ (MixBuffer idleEnv (MixBuffer idleEnv driftInstance).p_aout).ret = -1
      ∧ fifoDates (MixBuffer idleEnv (MixBuffer idleEnv driftInstance).p_aout).p_aout
          = [[(30, 60)], [(35, 38)]])
    ∧ ((MixBuffer idleEnv overlapInstance).ret = -1
      ∧ fifoDates (MixBuffer idleEnv overlapInstance).p_aout = [[(10, 20)]]
      ∧ (MixBuffer idleEnv (MixBuffer idleEnv overlapInstance).p_aout).ret = -1
      ∧ fifoDates (MixBuffer idleEnv (MixBuffer idleEnv overlapInstance).p_aout).p_aout = [[]])
    ∧ ((MixBuffer idleEnv backwardInstance).ret = -1
      ∧ fifoDates (MixBuffer idleEnv backwardInstance).p_aout = [[(0, 50)]]
      ∧ (MixBuffer idleEnv (MixBuffer idleEnv backwardInstance).p_aout).ret = 0) := by
  refine ⟨⟨?_, ?_, ?_, ?_⟩, ⟨?_, ?_, ?_, ?_⟩, ?_, ?_, ?_⟩ <;>
    simp [MixBuffer, reconcile, retrieveDate, aout_FifoNextStart, findStart, latestStart,
      cycleEnd, mixInputs, mixInput, dropPast, checkEnough, checkContiguous, driftInstance,
      overlapInstance, backwardInstance, instanceOf, idleEnv, Int.tdiv, linearFormat,
      fifoDates, bufferAt_start_date, bufferAt_end_date]

/-- C10 (amended): for a fixed environment (current date and allocation), when no buffer of an
input fifo ends earlier than a buffer before it, `MixBuffer` returns -1, and the call on the
instance it leaves chooses the same start date as the first call (which is so whenever the
output clock is set and not earlier than the current date, see `cycleStart_again`), that second
call returns -1 again and frees nothing: the buffers of every input fifo are after it what
they were before it. -/
theorem C10_no_progress_again (env : aout_env) (p_aout : aout_instance_t)
    (hsorted : ∀ q ∈ p_aout.pp_inputs, endsSorted q.fifo)
    (hret : (MixBuffer env p_aout).ret = -1)
    (hstart : cycleStart env (MixBuffer env p_aout).p_aout = cycleStart env p_aout) :
    (MixBuffer env (MixBuffer env p_aout).p_aout).ret = -1
      ∧ fifos (MixBuffer env (MixBuffer env p_aout).p_aout).p_aout
          = fifos (MixBuffer env p_aout).p_aout :=
  MixBuffer_again env p_aout hsorted hret hstart

/-- Witness of C10 (amended): `waitingInstance`, whose first call frees the buffer (0,10) and
returns -1. -/
theorem C10_no_progress_again_witness :
    fifoDates (MixBuffer idleEnv waitingInstance).p_aout = [[(40, 60)]]
      ∧ (MixBuffer idleEnv (MixBuffer idleEnv waitingInstance).p_aout).ret = -1
      ∧ fifos (MixBuffer idleEnv (MixBuffer idleEnv waitingInstance).p_aout).p_aout
          = fifos (MixBuffer idleEnv waitingInstance).p_aout := by
  have hret : (MixBuffer idleEnv waitingInstance).ret = -1 := by
    simp [MixBuffer, reconcile, retrieveDate, aout_FifoNextStart, findStart, latestStart,
      cycleEnd, mixInputs, mixInput, dropPast, checkEnough, checkContiguous, waitingInstance,
      instanceOf, idleEnv, Int.tdiv, linearFormat, bufferAt_start_date, bufferAt_end_date]
  refine ⟨?_, C10_no_progress_again idleEnv waitingInstance (by decide) hret
    (cycleStart_again idleEnv waitingInstance (by decide) (by decide) hret)⟩
  simp [MixBuffer, reconcile, retrieveDate, aout_FifoNextStart, findStart, latestStart,
    cycleEnd, mixInputs, mixInput, dropPast, checkEnough, checkContiguous, waitingInstance,
    instanceOf, idleEnv, Int.tdiv, linearFormat, fifoDates, bufferAt_start_date,
    bufferAt_end_date]

/-! ## The lock -/

/-- C14: on every path of `MixBuffer` the trace starts with the one acquisition of the mixer
lock, holds exactly one release, and obeys the lock discipline: the work routine of the mixer
runs while the lock is held, `aout_OutputPlay` is called only once the lock is released, and
the lock is free when the function returns, whichever of the returns is taken (a call that
returns -1 does nothing but take and release the lock). -/
theorem C14_lock_discipline (env : aout_env) (p_aout : aout_instance_t) :
    (MixBuffer env p_aout).trace.head? = some aout_event.mutex_lock
      ∧ lockCount (MixBuffer env p_aout).trace = 1
      ∧ unlockCount (MixBuffer env p_aout).trace = 1
      ∧ lockDiscipline false (MixBuffer env p_aout).trace = true
      ∧ ((MixBuffer env p_aout).ret = -1 ∨ (MixBuffer env p_aout).ret = 0)
      ∧ ((MixBuffer env p_aout).ret = -1 →
          (MixBuffer env p_aout).trace = [aout_event.mutex_lock, aout_event.mutex_unlock]) := by
  rcases MixBuffer_ret env p_aout with h0 | ⟨h1, htrace⟩
  · obtain ⟨s, addr, _, _, htrace⟩ := MixBuffer_progress env p_aout h0
    rw [htrace, h0]
    simp [lockCount, unlockCount, lockDiscipline]
  · rw [htrace, h1]
    simp [lockCount, unlockCount, lockDiscipline]

/-- Witness of C14: a call that returns -1, because the second fifo is empty. -/
theorem C14_lock_discipline_witness :
    (MixBuffer idleEnv (instanceOf 20 [[bufferAt 0 30], []])).trace
      = [aout_event.mutex_lock, aout_event.mutex_unlock] :=
  (C14_lock_discipline idleEnv (instanceOf 20 [[bufferAt 0 30], []])).2.2.2.2.2
    (by
      simp [MixBuffer, retrieveDate, aout_FifoNextStart, findStart, latestStart, instanceOf,
        idleEnv])

/-! ## What the call does to the fifos -/

/-- C18: after the loop over the inputs, that is on the instance the work routine of the mixer
is entered with and on the instance every return with -1 leaves, the fifo of each input is a
suffix of the fifo the same input had before the call: buffers leave a fifo at its front only,
the others keep their order, and no fifo receives a buffer. -/
theorem C18_fifos_shrink (env : aout_env) (p_aout : aout_instance_t) :
    (∀ st ∈ worked (MixBuffer env p_aout).trace, fifosShrunk st.pp_inputs p_aout.pp_inputs)
      ∧ ((MixBuffer env p_aout).ret = -1 →
          fifosShrunk (MixBuffer env p_aout).p_aout.pp_inputs p_aout.pp_inputs) := by
  constructor
  · intro st hst
    rcases MixBuffer_ret env p_aout with h0 | ⟨_, htrace⟩
    · obtain ⟨s, addr, _, _, htrace⟩ := MixBuffer_progress env p_aout h0
      rw [htrace] at hst
      simp only [worked, List.mem_singleton] at hst
      rw [hst]
      exact reconcile_shrunk env p_aout s
    · rw [htrace] at hst
      simp [worked] at hst
  · intro hret
    rcases MixBuffer_failed env p_aout hret with ⟨_, hst⟩ | ⟨s, _, hst, _⟩
    · rw [hst, retrieveDate_inputs]
      exact fifosShrunk_refl _
    · rw [hst]
      exact reconcile_shrunk env p_aout s

/-- Witness of C18: `driftInstance`, whose call frees the head of the second fifo and
returns -1. -/
theorem C18_fifos_shrink_witness :
    fifosShrunk (MixBuffer idleEnv driftInstance).p_aout.pp_inputs driftInstance.pp_inputs :=
  (C18_fifos_shrink idleEnv driftInstance).2
    (by
      simp [MixBuffer, reconcile, retrieveDate, aout_FifoNextStart, findStart, latestStart,
        cycleEnd, mixInputs, mixInput, dropPast, checkEnough, checkContiguous, driftInstance,
        instanceOf, idleEnv, Int.tdiv, linearFormat, bufferAt_start_date, bufferAt_end_date])

/-! ## The buffer handed to the allocation -/

/-- C20: when there is at least one input and `MixBuffer` reaches the allocation of the output
buffer (a start date was found and the loop over the inputs ran through), the fifo of input 0
is not empty: the buffer `pp_inputs[0]->fifo.p_first` handed to the allocation exists. -/
theorem C20_first_buffer_exists (env : aout_env) (p_aout : aout_instance_t) (s : mtime_t)
    (hne : p_aout.pp_inputs ≠ [])
    (_hs : cycleStart env p_aout = some s)
    (hpass : (reconcile env p_aout s).2 = true) :
    ∃ b, firstBuffer (reconcile env p_aout s).1.pp_inputs = some b := by
  have hall := mixInputs_reachesEnd p_aout.mixer s (cycleEnd p_aout s) p_aout.pp_inputs
    (by rw [← reconcile_passes env]; exact hpass)
  have hlen := (mixInputs_shrunk p_aout.mixer s (cycleEnd p_aout s) p_aout.pp_inputs).length_eq
  rw [reconcile_inputs]
  cases hl : (mixInputs p_aout.mixer s (cycleEnd p_aout s) p_aout.pp_inputs).1 with
  | nil =>
    rw [hl] at hlen
    exact absurd (List.length_eq_zero.mp hlen.symm) hne
  | cons q rest =>
    have hq := reachesEnd_ne_nil _ _ (hall q (by rw [hl]; exact List.mem_cons_self _ _))
    cases hf : q.fifo with
    | nil => exact absurd hf hq
    | cons b tl => exact ⟨b, by simp [firstBuffer, hf]⟩

/-- Witness of C20: two inputs that each hold one buffer covering the cycle `[0, 25)`. -/
theorem C20_first_buffer_exists_witness :
    ∃ b, firstBuffer
      (reconcile idleEnv (instanceOf 25 [[bufferAt 0 25], [bufferAt 0 25]]) 0).1.pp_inputs
        = some b :=
  C20_first_buffer_exists idleEnv (instanceOf 25 [[bufferAt 0 25], [bufferAt 0 25]]) 0
    (by decide) (by decide)
    (by
      simp [reconcile, retrieveDate, aout_FifoNextStart, cycleEnd, mixInputs, mixInput,
        dropPast, checkEnough, instanceOf, idleEnv, Int.tdiv, linearFormat,
        bufferAt_start_date, bufferAt_end_date])

/-! ## The loop that checks for enough samples ends -/

/-- C19: the loop that checks for enough samples ends on every fifo.  A turn that does not
leave the loop drops buffers at a hole: it removes the head (and the buffers between the head
and the hole) and leaves a fifo that is not empty, the buffer after the hole being its head.
So on a fifo that is not empty the loop is left within as many turns as the fifo has buffers,
with the result of `checkEnough`; on the empty fifo the first turn leaves it. -/
theorem C19_enough_loop_ends (end_date : mtime_t) (fifo : List aout_buffer_t) :
    (∀ fifo1, checkEnoughTurn end_date fifo = Sum.inl fifo1 →
        fifo1 ≠ [] ∧ fifo1.length < fifo.length ∧ ∃ b l, fifo = b :: l ∧ fifo1 <:+ l)
      ∧ (fifo ≠ [] →
          checkEnoughTurns end_date fifo.length fifo = some (checkEnough end_date fifo))
      ∧ checkEnoughTurns end_date 1 [] = some (checkEnough end_date []) := by
  refine ⟨?_, ?_, ?_⟩
  · intro fifo1 h
    obtain ⟨hne, b, l, hfifo, hsuf⟩ := checkEnoughTurn_drops end_date fifo fifo1 h
    refine ⟨hne, ?_, b, l, hfifo, hsuf⟩
    have := hsuf.length_le
    rw [hfifo, List.length_cons]
    omega
  · intro hne
    apply checkEnoughTurns_enough end_date fifo fifo.length (le_refl _)
    cases fifo with
    | nil => exact absurd rfl hne
    | cons b l => simp
  · exact checkEnoughTurns_enough end_date [] 1 (by simp) (le_refl _)

/-- Witness of C19: the fifo (0,10), (15,20), (30,60) and the end date 50: two turns drop
buffers at a hole, the third turn leaves the loop. -/
theorem C19_enough_loop_ends_witness :
    checkEnoughTurns 50 3 [bufferAt 0 10, bufferAt 15 20, bufferAt 30 60]
        = some (checkEnough 50 [bufferAt 0 10, bufferAt 15 20, bufferAt 30 60])
      ∧ checkEnoughTurns 50 2 [bufferAt 0 10, bufferAt 15 20, bufferAt 30 60] = none
      ∧ checkEnoughTurns 50 3 [bufferAt 0 10, bufferAt 15 20, bufferAt 30 60]
        = some ([bufferAt 30 60], [bufferAt 30 60]) :=
  ⟨(C19_enough_loop_ends 50 [bufferAt 0 10, bufferAt 15 20, bufferAt 30 60]).2.1 (by simp),
    by decide, by decide⟩

/-! ## The check of the first byte to mix -/

/-- C11 (as stated) fails when the head buffer starts after the start date of the cycle: with
the head (50,100), the start date 20 and the pointer 100 bytes into the payload, the expected
offset is -5, more than one frame of 4 bytes away; the code computes in `unsigned long` and
leaves the pointer 8 bytes before the payload, whereas the truncating division of the claim
gives -4. -/
theorem C11_counterexample :
    expectedOffset linearFormat 20 (bufferAt 50 100) = -5
      ∧ byteOffset (bufferAt 50 100) 4196 = 100
      ∧ byteOffset (bufferAt 50 100) (alignFirstByte linearFormat 20 (bufferAt 50 100) 4196) = -8
      ∧ Int.tdiv (expectedOffset linearFormat 20 (bufferAt 50 100))
          linearFormat.i_bytes_per_frame * linearFormat.i_bytes_per_frame = -4 := by
  decide

/-- C11 (amended): for a linear format (frames of a positive number of bytes and samples, a
rate that is not negative) and a head buffer that starts at the start date of the cycle or
earlier, the values fitting in an `unsigned long`: when `p_first_byte_to_mix` is set and its
offset in the head buffer differs from the expected offset by more than `i_bytes_per_frame`,
in either direction, the offset after the check is `expected / i_bytes_per_frame *
i_bytes_per_frame` (truncating division), a multiple of `i_bytes_per_frame` that is at most
`expected` and more than `expected - i_bytes_per_frame`. -/
theorem C11_drift_snap (mixer : audio_sample_format_t) (s : mtime_t) (b : aout_buffer_t)
    (first : Nat)
    (hbpf : 0 < mixer.i_bytes_per_frame) (hrate : 0 ≤ mixer.i_rate)
    (hfl : 0 < mixer.i_frame_length) (hhead : b.start_date ≤ s)
    (hfits : (b.p_buffer : Int) + expectedOffset mixer s b + mixer.i_bytes_per_frame
      < (ULONG_SIZE : Int))
    (hset : first ≠ NULL) (hfirst : first < ULONG_SIZE)
    (hdev : byteOffset b first > expectedOffset mixer s b + mixer.i_bytes_per_frame
      ∨ byteOffset b first < expectedOffset mixer s b - mixer.i_bytes_per_frame) :
    byteOffset b (alignFirstByte mixer s b first)
        = Int.tdiv (expectedOffset mixer s b) mixer.i_bytes_per_frame * mixer.i_bytes_per_frame
      ∧ byteOffset b (alignFirstByte mixer s b first) ≤ expectedOffset mixer s b
      ∧ expectedOffset mixer s b - mixer.i_bytes_per_frame
          < byteOffset b (alignFirstByte mixer s b first) := by
  obtain ⟨e, bn, hE, hB, he, hbn, hbpos, hfit⟩ :=
    unsigned_values mixer s b hbpf hrate hfl hhead hfits
  rw [hE, hB] at hdev ⊢
  unfold byteOffset at hdev
  have hres := alignFirstByte_far mixer s b first e bn he hbn hbpos hfit hfirst hset hdev
  have hq1 := Nat.div_mul_le_self e bn
  have hq2 := Nat.lt_div_mul_add (a := e) hbpos
  have hoff : byteOffset b (alignFirstByte mixer s b first) = ((e / bn * bn : Nat) : Int) := by
    unfold byteOffset
    rw [hres]
    push_cast
    ring
  rw [hoff]
  refine ⟨snapped_offset e bn, ?_, ?_⟩
  · exact_mod_cast hq1
  · have : (e : Int) < ((e / bn * bn : Nat) : Int) + (bn : Int) := by exact_mod_cast hq2
    omega

/-- Witness of C11 (amended): the head starts at 0, the cycle at 100, the pointer is 100 bytes
into the payload; the expected offset is 19 and the offset after the check is 16. -/
theorem C11_drift_snap_witness :
    expectedOffset linearFormat 100 (bufferAt 0 1000) = 19
      ∧ byteOffset (bufferAt 0 1000) (alignFirstByte linearFormat 100 (bufferAt 0 1000) 4196)
        = Int.tdiv (expectedOffset linearFormat 100 (bufferAt 0 1000))
            linearFormat.i_bytes_per_frame * linearFormat.i_bytes_per_frame :=
  ⟨by decide,
    (C11_drift_snap linearFormat 100 (bufferAt 0 1000) 4196 (by decide) (by decide) (by decide)
      (by decide) (by decide) (by decide) (by decide) (by decide)).1⟩

/-- C12 (as stated) fails: with `p_first_byte_to_mix` unset the pointer is first set to the
start of the payload and then checked.  With the expected offset 7 the offset after the check
is 4, the multiple of the frame size below 7; with the expected offset 4, exactly one frame,
the check does not fire and the offset is 0. -/
theorem C12_counterexample :
    (expectedOffset linearFormat 40 (bufferAt 0 100) = 7
      ∧ byteOffset (bufferAt 0 100) (alignFirstByte linearFormat 40 (bufferAt 0 100) NULL) = 4)
    ∧ (expectedOffset linearFormat 21 (bufferAt 0 100) = 4
      ∧ byteOffset (bufferAt 0 100) (alignFirstByte linearFormat 21 (bufferAt 0 100) NULL)
        = 0) := by
  decide

/-- C12 (amended): for a linear format and a head buffer that starts at the start date of the
cycle or earlier, the values fitting in an `unsigned long`: when `p_first_byte_to_mix` is unset
as the check runs, the offset after the check is `expected / i_bytes_per_frame *
i_bytes_per_frame` (truncating division), except that it is 0 when `expected` is exactly
`i_bytes_per_frame`; in both cases it is at most `expected` and at least
`expected - i_bytes_per_frame`. -/
theorem C12_unset_offset (mixer : audio_sample_format_t) (s : mtime_t) (b : aout_buffer_t)
    (hbpf : 0 < mixer.i_bytes_per_frame) (hrate : 0 ≤ mixer.i_rate)
    (hfl : 0 < mixer.i_frame_length) (hhead : b.start_date ≤ s)
    (hfits : (b.p_buffer : Int) + expectedOffset mixer s b + mixer.i_bytes_per_frame
      < (ULONG_SIZE : Int)) :
    byteOffset b (alignFirstByte mixer s b NULL)
        = (if expectedOffset mixer s b = mixer.i_bytes_per_frame then 0
            else Int.tdiv (expectedOffset mixer s b) mixer.i_bytes_per_frame
              * mixer.i_bytes_per_frame)
      ∧ byteOffset b (alignFirstByte mixer s b NULL) ≤ expectedOffset mixer s b
      ∧ expectedOffset mixer s b - mixer.i_bytes_per_frame
          ≤ byteOffset b (alignFirstByte mixer s b NULL) := by
  obtain ⟨e, bn, hE, hB, he, hbn, hbpos, hfit⟩ :=
    unsigned_values mixer s b hbpf hrate hfl hhead hfits
  rw [hE, hB]
  have hres := alignFirstByte_null mixer s b e bn he hbn hbpos hfit
  have hq1 := Nat.div_mul_le_self e bn
  have hq2 := Nat.lt_div_mul_add (a := e) hbpos
  by_cases heq : e = bn
  · rw [if_pos heq] at hres
    have hoff : byteOffset b (alignFirstByte mixer s b NULL) = 0 := by
      unfold byteOffset
      rw [hres]
      exact sub_self _
    rw [hoff, if_pos (by exact_mod_cast heq)]
    refine ⟨rfl, Int.ofNat_nonneg e, ?_⟩
    rw [heq]
    exact le_of_eq (sub_self _)
  · rw [if_neg heq] at hres
    have hoff : byteOffset b (alignFirstByte mixer s b NULL)
        = ((e / bn * bn : Nat) : Int) := by
      unfold byteOffset
      rw [hres]
      push_cast
      ring
    rw [hoff, if_neg (by exact_mod_cast heq)]
    refine ⟨snapped_offset e bn, ?_, ?_⟩
    · exact_mod_cast hq1
    · have : (e : Int) < ((e / bn * bn : Nat) : Int) + (bn : Int) := by exact_mod_cast hq2
      omega

/-- Witness of C12 (amended): the head starts at 0, the cycle at 100; the expected offset
is 19 and the offset after the check is 16. -/
theorem C12_unset_offset_witness :
    byteOffset (bufferAt 0 1000) (alignFirstByte linearFormat 100 (bufferAt 0 1000) NULL) = 16
      ∧ byteOffset (bufferAt 0 1000) (alignFirstByte linearFormat 100 (bufferAt 0 1000) NULL)
        ≤ expectedOffset linearFormat 100 (bufferAt 0 1000) :=
  ⟨by decide,
    (C12_unset_offset linearFormat 100 (bufferAt 0 1000) (by decide) (by decide) (by decide)
      (by decide) (by decide)).2.1⟩

/-- C13 (the code at the failing input): on `holeInstance` the cycle is `[0, 63000)`.  The
check sets `p_first_byte_to_mix` to the start of the payload of the first buffer (address
4096); the loop that checks for enough samples then meets the hole, frees the first buffer and
makes the second one (payload at 20480) the head, without touching `p_first_byte_to_mix`.
`MixBuffer` returns 0 and the mixer works with a pointer that is neither `NULL` nor in the
payload of the head buffer: it points into the buffer that was freed. -/
theorem C13_first_byte_in_freed_buffer :
    (MixBuffer idleEnv holeInstance).ret = 0
      ∧ (worked (MixBuffer idleEnv holeInstance).trace).map (fun st => st.pp_inputs)
        = [[⟨[pcmBuffer 63000 20480], 4096⟩]]
      ∧ firstByteInHead ⟨[pcmBuffer 63000 20480], 4096⟩ = false
      ∧ firstByteInHead ⟨[pcmBuffer 0 4096, pcmBuffer 63000 20480], 4096⟩ = true := by
  have ha : alignFirstByte linearFormat 0 (pcmBuffer 0 4096) NULL = 4096 := by decide
  refine ⟨?_, ?_, by decide, by decide⟩ <;>
    simp [MixBuffer, reconcile, retrieveDate, aout_FifoNextStart, findStart, latestStart,
      cycleEnd, mixInputs, mixInput, dropPast, checkEnough, checkContiguous, holeInstance,
      pcmInstance, idleEnv, Int.tdiv, linearFormat_non_linear, pcmBuffer_start_date,
      pcmBuffer_end_date, worked, ha]

/-- C15 (the code at the failing input): on `resumedInstance` the cycle starts at 20, the
expected offset in the head buffer is 3 and `p_first_byte_to_mix` is 4 bytes into the payload,
one byte away, with frames of 4 bytes.  The subtraction `i_nb_bytes - i_bytes_per_frame` wraps
in `unsigned long`, the check fires, and the mixer works with the pointer moved back to the
start of the payload (offset 0). -/
theorem C15_near_offset_moved :
    cycleStart idleEnv resumedInstance = some 20
      ∧ expectedOffset linearFormat 20 (pcmBuffer 0 4096) = 3
      ∧ byteOffset (pcmBuffer 0 4096) 4100 = 4
      ∧ (MixBuffer idleEnv resumedInstance).ret = 0
      ∧ (worked (MixBuffer idleEnv resumedInstance).trace).map firstBytes = [[4096]]
      ∧ byteOffset (pcmBuffer 0 4096) 4096 = 0 := by
  have ha : alignFirstByte linearFormat 20 (pcmBuffer 0 4096) 4100 = 4096 := by decide
  refine ⟨by decide, by decide, by decide, ?_, ?_, by decide⟩ <;>
    simp [MixBuffer, reconcile, retrieveDate, aout_FifoNextStart, findStart, latestStart,
      cycleEnd, mixInputs, mixInput, dropPast, checkEnough, checkContiguous, resumedInstance,
      pcmInstance, idleEnv, Int.tdiv, linearFormat_non_linear, pcmBuffer_start_date,
      pcmBuffer_end_date, worked, firstBytes, ha]

/-- C16 (the code at the failing input): on `skewedInstance` the cycle starts at 40 and the
expected offset in the head buffer of the first input is 7.  The check fires and the division
of line 176 truncates: the mixer works with the pointer 4 bytes into the payload, whereas 8,
also a multiple of the frame size 4, is nearer to 7. -/
theorem C16_snap_truncates :
    cycleStart idleEnv skewedInstance = some 40
      ∧ expectedBytes linearFormat 40 (pcmBuffer 0 4096) = 7
      ∧ (MixBuffer idleEnv skewedInstance).ret = 0
      ∧ (worked (MixBuffer idleEnv skewedInstance).trace).map firstBytes = [[4100, 20480]]
      ∧ byteOffset (pcmBuffer 0 4096) 4100 = 4
      ∧ offsetDistance 8 7 < offsetDistance 4 7 := by
  have ha : alignFirstByte linearFormat 40 (pcmBuffer 0 4096) NULL = 4100 := by decide
  have hb : alignFirstByte linearFormat 40 (pcmBuffer 40 20480) NULL = 20480 := by decide
  refine ⟨by decide, by decide, ?_, ?_, by decide, by decide⟩ <;>
    simp [MixBuffer, reconcile, retrieveDate, aout_FifoNextStart, findStart, latestStart,
      cycleEnd, mixInputs, mixInput, dropPast, checkEnough, checkContiguous, skewedInstance,
      pcmInstance, idleEnv, Int.tdiv, linearFormat_non_linear, pcmBuffer_start_date,
      pcmBuffer_end_date, worked, firstBytes, ha, hb]

/-- C17 (the code at the failing input): on `lateHeadInstance` the cycle is `[70000, 80000)`.
In the first fifo the buffer that ends at 62500 is freed, which leaves `p_first_byte_to_mix`
unset, and the buffer that starts at 125000 (12000 bytes, payload at 20480) becomes the head.
The expected offset is -10560; converted to `unsigned long` it makes the check fire and the
mixer works with the pointer 9920, that is 10560 bytes before the payload of the head
buffer. -/
theorem C17_first_byte_before_payload :
    cycleStart idleEnv lateHeadInstance = some 70000
      ∧ expectedOffset linearFormat 70000 (pcmBuffer 125000 20480) = -10560
      ∧ expectedOffset linearFormat (pcmBuffer 125000 20480).end_date (pcmBuffer 125000 20480)
        = (pcmBuffer 125000 20480).i_nb_bytes
      ∧ (MixBuffer idleEnv lateHeadInstance).ret = 0
      ∧ (worked (MixBuffer idleEnv lateHeadInstance).trace).map (fun st => st.pp_inputs)
        = [[⟨[pcmBuffer 125000 20480], 9920⟩, ⟨[pcmBuffer 70000 36864], 36864⟩]]
      ∧ byteOffset (pcmBuffer 125000 20480) 9920 = -10560
      ∧ firstByteInHead ⟨[pcmBuffer 125000 20480], 9920⟩ = false := by
  have ha : alignFirstByte linearFormat 70000 (pcmBuffer 125000 20480) NULL = 9920 := by decide
  have hb : alignFirstByte linearFormat 70000 (pcmBuffer 70000 36864) NULL = 36864 := by decide
  refine ⟨by decide, by decide, by decide, ?_, ?_, by decide, by decide⟩ <;>
    simp [MixBuffer, reconcile, retrieveDate, aout_FifoNextStart, findStart, latestStart,
      cycleEnd, mixInputs, mixInput, dropPast, checkEnough, checkContiguous, lateHeadInstance,
      pcmInstance, idleEnv, Int.tdiv, linearFormat_non_linear, pcmBuffer_start_date,
      pcmBuffer_end_date, worked, ha, hb]

end Mixer
